import Mathlib

/-!
Verification of the graph-generation orchestration engine of `binGraph.py`
(CAPESandbox/binGraph).  Python strings are modelled as `List Char`; the
filesystem is modelled as a finite tree of entries; the matplotlib backend
and the analysis modules (`graphs.ent`, `graphs.hist`) are abstracted as
function parameters, since only their contract matters to the core.
-/

set_option maxRecDepth 4000

/-- Python strings (and paths) are modelled as lists of characters. -/
abbrev Str := List Char

/-! ## Python `str.replace` (used by `gen_names`'s template substitution)

`replCore` is fuel-indexed so that it is structurally recursive (and hence
kernel-reducible); `replList s pat rep` runs it with fuel `s.length`, which
is always enough.  Semantics: replace every non-overlapping occurrence of
`pat`, scanning left to right — exactly Python's `str.replace` for a
non-empty pattern. -/
def replCore (pat rep : Str) : Nat → Str → Str
  | _, [] => []
  | 0, s => s
  | fuel + 1, c :: cs =>
    if pat ≠ [] ∧ pat.isPrefixOf (c :: cs) then
      rep ++ replCore pat rep fuel (List.drop pat.length (c :: cs))
    else
      c :: replCore pat rep fuel cs

/-- Python `s.replace(pat, rep)` for non-empty `pat`. -/
def replList (s pat rep : Str) : Str := replCore pat rep s.length s

/-- `clean_fname` (binGraph.py line 75-76): keep only alphanumeric
characters.  Python's `str.isalnum` restricted to ASCII coincides with
`Char.isAlphanum`; non-ASCII alphanumerics are outside the modelled
alphabet. -/
def clean_fname (fn : Str) : Str := fn.filter Char.isAlphanum

/-- POSIX `os.path.basename`: everything after the last `'/'`. -/
def basename (p : Str) : Str :=
  p.foldl (fun acc c => if c = '/' then [] else acc ++ [c]) []

/-- POSIX `os.path.join` for two arguments. -/
def path_join (a b : Str) : Str :=
  if b.head? = some '/' then b
  else if a = [] ∨ a.getLast? = some '/' then a ++ b
  else a ++ '/' :: b

/-- Python truthiness of an `Optional[str]`: `None` and `""` are falsy. -/
def pyTruthyStr : Option Str → Bool
  | none => false
  | some s => s ≠ []

/-- Python `str(n)` for a non-negative integer. -/
def natStr (n : Nat) : Str := Nat.toDigits 10 n

/-- The filename template of `gen_names` (binGraph.py line 82). -/
def tplFull : Str :=
  "\x7bprefix\x7d-\x7bfindex\x7d-\x7bgraphtype\x7d-\x7bcleaned_fname\x7d.\x7bffrmt\x7d".data

/-- Template placeholder `"{prefix}"`. -/
def pPfx : Str := "\x7bprefix\x7d".data
/-- Template placeholder `"{prefix}-"`. -/
def pPfxD : Str := "\x7bprefix\x7d-".data
/-- Template placeholder `"{graphtype}"`. -/
def pGty : Str := "\x7bgraphtype\x7d".data
/-- Template placeholder `"{findex}"`. -/
def pFdx : Str := "\x7bfindex\x7d".data
/-- Template placeholder `"{findex}-"`. -/
def pFdxD : Str := "\x7bfindex\x7d-".data
/-- Template placeholder `"{cleaned_fname}"`. -/
def pCfn : Str := "\x7bcleaned_fname\x7d".data
/-- Template placeholder `"-{cleaned_fname}"`. -/
def pCfnD : Str := "-\x7bcleaned_fname\x7d".data
/-- Template placeholder `"{ffrmt}"`. -/
def pFmt : Str := "\x7bffrmt\x7d".data

/-- `gen_names` (binGraph.py lines 80-100).  `save_prefix` is the
`save_prefix=None` keyword argument (renamed `save_pfx` here), `findex` is
`None` or an `int` (modelled as `Option Nat`; the `isinstance(findex, int)`
test becomes `Option.isSome`).  Returns
`(abs_save_fpath, os.path.basename(abs_fpath), cleaned_fname)`. -/
def gen_names (ffrmt abs_fpath abs_save_path : Str) (save_pfx : Option Str)
    (graphtype : Str) (findex : Option Nat) : Str × Str × Str :=
  let s1 := if pyTruthyStr save_pfx then replList tplFull pPfx (save_pfx.getD [])
            else replList tplFull pPfxD []
  let s2 := replList s1 pGty graphtype
  let cleaned := clean_fname (basename abs_fpath)
  let s3 := match findex with
            | some i => replList (replList s2 pFdx (natStr i)) pCfn cleaned
            | none => replList (replList s2 pFdxD []) pCfnD []
  let s4 := replList s3 pFmt ffrmt
  (path_join abs_save_path s4, basename abs_fpath, cleaned)

/-- `compatB q pat` holds when one of the two lists is a prefix of the
other, i.e. when an occurrence of `pat` could begin at the start of `q`
for a suitable continuation. -/
def compatB (q pat : Str) : Bool := q.isPrefixOf pat || pat.isPrefixOf q

/-- No occurrence of `pat` can begin at any position of `c`, whatever
follows `c`. -/
def cannotStartIn : Str → Str → Bool
  | [], _ => true
  | c :: cs, pat => !compatB (c :: cs) pat && cannotStartIn cs pat

/-! ## Concrete pieces of the `gen_names` template -/

/-- Template tail `"-{findex}-"`. -/
def rA : Str := "-\x7bfindex\x7d-".data
/-- Template tail `"-{cleaned_fname}.{ffrmt}"`. -/
def rT : Str := "-\x7bcleaned_fname\x7d.\x7bffrmt\x7d".data
/-- Template tail `".{ffrmt}"`. -/
def rDot : Str := ".\x7bffrmt\x7d".data
/-- A single dash. -/
def dashS : Str := "-".data
/-- A single dot. -/
def dotS : Str := ".".data
/-- Tail of the `"{graphtype}"` placeholder. -/
def gtyT : Str := "graphtype\x7d".data
/-- Tail of the `"{findex}"` placeholder. -/
def fdxT : Str := "findex\x7d".data
/-- Tail of the `"{findex}-"` placeholder. -/
def fdxDT : Str := "findex\x7d-".data
/-- Tail of the `"{cleaned_fname}"` placeholder. -/
def cfnT : Str := "cleaned_fname\x7d".data
/-- Tail of the `"{ffrmt}"` placeholder. -/
def fmtT : Str := "ffrmt\x7d".data

/-! ## The shape of the generated name (what the code actually produces) -/

/-- The optional `prefix-` segment of the output filename. -/
def segPfxStr (o : Option Str) : Str :=
  if pyTruthyStr o then o.getD [] ++ dashS else []

/-- The middle segment of the output filename: with a batch index the code
produces `index-graphtype-cleaned`, without one it produces just
`graphtype` (the sanitized basename is dropped together with the index). -/
def segIdx (g cleaned : Str) : Option Nat → Str
  | some i => natStr i ++ (dashS ++ (g ++ (dashS ++ cleaned)))
  | none => g

/-- The filename assembled by `gen_names`:
`[prefix-]{index-graphtype-cleaned | graphtype}.format`. -/
def assembled_name (o : Option Str) (g cleaned f : Str) (io : Option Nat) : Str :=
  segPfxStr o ++ (segIdx g cleaned io ++ (dotS ++ f))

/-! ## Filesystem model

A POSIX-like filesystem is a finite tree.  A symlink entry carries its
resolved target's kind and content (so `os.path.isfile` follows the link,
while `os.path.islink` reports the flag); a broken symlink is not
representable and out of scope. -/

/-- A filesystem entry: a regular file (with content) or a directory (with
named children, in directory order).  `lk` records whether the entry is a
symbolic link. -/
inductive Entry where
  | file (content : Str) (lk : Bool)
  | dir (children : List (Str × Entry)) (lk : Bool)

/-- A filesystem: the tree rooted at `/` plus the current working
directory (an absolute path). -/
structure FS where
  root : Entry
  cwd : Str

/-- Split a character list at every occurrence of the separator,
keeping empty components. -/
def splitChar (d : Char) : Str → List Str
  | [] => [[]]
  | c :: cs =>
    match splitChar d cs with
    | [] => [[]]
    | r :: rs => if c = d then [] :: r :: rs else (c :: r) :: rs

/-- Path components: split on `/`, dropping empty components and `"."`. -/
def pathComps (p : Str) : List Str :=
  (splitChar '/' p).filter (fun c => ¬(c = [] ∨ c = ".".data))

/-- Does the path start with `/`? -/
def isAbsStr (p : Str) : Bool := p.head? = some '/'

/-- First child with the given name. -/
def findPair (n : Str) : List (Str × Entry) → Option Entry
  | [] => none
  | (m, e) :: rest => if m = n then some e else findPair n rest

/-- Walk down the tree along a component list. -/
def lookupE : List Str → Entry → Option Entry
  | [], e => some e
  | n :: rest, Entry.dir ch _ =>
    match findPair n ch with
    | some e' => lookupE rest e'
    | none => none
  | _ :: _, Entry.file _ _ => none

/-- The components used to resolve a path: relative paths are resolved
against the current working directory (`..` is out of modelled scope). -/
def compsUsed (fs : FS) (p : Str) : List Str :=
  (if isAbsStr p then [] else pathComps fs.cwd) ++ pathComps p

/-- Resolve a path in the filesystem. -/
def lookupF (fs : FS) (p : Str) : Option Entry := lookupE (compsUsed fs p) fs.root

/-- `os.path.isfile` (follows symlinks). -/
def isfileF (fs : FS) (p : Str) : Bool :=
  match lookupF fs p with
  | some (Entry.file _ _) => true
  | _ => false

/-- `os.path.isdir` (follows symlinks). -/
def isdirF (fs : FS) (p : Str) : Bool :=
  match lookupF fs p with
  | some (Entry.dir _ _) => true
  | _ => false

/-- `os.path.islink`. -/
def islinkF (fs : FS) (p : Str) : Bool :=
  match lookupF fs p with
  | some (Entry.file _ lk) => lk
  | some (Entry.dir _ lk) => lk
  | none => false

/-- `os.stat(p).st_size` for files (only ever queried on files here). -/
def sizeF (fs : FS) (p : Str) : Nat :=
  match lookupF fs p with
  | some (Entry.file c _) => c.length
  | _ => 0

/-- Is the entry a directory (symlinked or not)?  Used for `os.walk`'s
`dirnames`. -/
def isDirE : Entry → Bool
  | Entry.dir _ _ => true
  | Entry.file _ _ => false

/-- Is the entry a non-symlink directory?  `os.walk` (with the default
`followlinks=False`) descends only into these. -/
def isRealDirE : Entry → Bool
  | Entry.dir _ lk => !lk
  | Entry.file _ _ => false

/-- The `dirnames` of one `os.walk` frame. -/
def dirNames (ch : List (Str × Entry)) : List Str :=
  ch.filterMap (fun p => if isDirE p.2 then some p.1 else none)

/-- The `filenames` of one `os.walk` frame. -/
def fileNames (ch : List (Str × Entry)) : List Str :=
  ch.filterMap (fun p => if isDirE p.2 then none else some p.1)

/-- One frame of `os.walk`: `(dirpath, dirnames, filenames)`. -/
abbrev Frame := Str × List Str × List Str

mutual
/-- `os.walk` from a directory entry located at path `p`: top-down,
children in directory order, not following symlinked directories. -/
def walk_entry (p : Str) : Entry → List Frame
  | Entry.file _ _ => []
  | Entry.dir ch _ => (p, dirNames ch, fileNames ch) :: walk_children p ch

/-- Recurse into the (non-symlink) directory children, in order. -/
def walk_children (p : Str) : List (Str × Entry) → List Frame
  | [] => []
  | (n, e) :: rest =>
    (if isRealDirE e then walk_entry (path_join p n) e else [])
      ++ walk_children p rest
end

/-- `os.walk(top)`: resolves `top` and walks it (binGraph only calls this
when `os.path.isdir(top)` holds). -/
def walkF (fs : FS) (top : Str) : List Frame :=
  match lookupF fs top with
  | some (Entry.dir ch lk) => walk_entry top (Entry.dir ch lk)
  | _ => []

/-- The per-frame file selection of `find_files` (binGraph.py lines
55-61): join the walk directory with each filename and keep it when it is
a regular non-symlink file of non-zero size. -/
def pick (fs : FS) (fr : Frame) : List Str :=
  fr.2.2.filterMap (fun fname =>
    let abs_fpath := path_join fr.1 fname
    if isfileF fs abs_fpath = true ∧ islinkF fs abs_fpath = false
        ∧ sizeF fs abs_fpath ≠ 0 then
      some abs_fpath
    else none)

/-- POSIX `os.path.normpath`. -/
def normStep (slashes : Nat) (acc : List Str) (comp : Str) : List Str :=
  if comp = [] ∨ comp = ".".data then acc
  else if comp ≠ "..".data ∨ (slashes = 0 ∧ acc = [])
      ∨ (acc ≠ [] ∧ acc.getLast? = some "..".data) then acc ++ [comp]
  else if acc ≠ [] then acc.dropLast
  else acc

/-- POSIX `os.path.normpath`. -/
def normpath (p : Str) : Str :=
  if p = [] then ".".data
  else
    let slashes : Nat :=
      if p.take 2 = ['/', '/'] ∧ p.take 3 ≠ ['/', '/', '/'] then 2
      else if p.head? = some '/' then 1 else 0
    let comps := (splitChar '/' p).foldl (normStep slashes) []
    let res := List.replicate slashes '/' ++ List.intercalate "/".data comps
    if res = [] then ".".data else res

/-- `os.path.abspath`: join with the working directory when relative,
then normalize. -/
def abspathF (fs : FS) (p : Str) : Str :=
  normpath (if isAbsStr p then p else path_join fs.cwd p)

/-- `find_files` (binGraph.py lines 50-71): gather files to process.
Directory inputs (with `recurse`) are walked; literal files are kept in
absolute form when they are regular, non-symlink and non-empty; everything
else is skipped with a diagnostic. -/
def find_files (fs : FS) : List Str → Bool → List Str
  | [], _ => []
  | f :: rest, recurse =>
    (if recurse = true ∧ isdirF fs f = true then
      (walkF fs f).flatMap (pick fs)
    else if isfileF fs f = true ∧ islinkF fs f = false ∧ sizeF fs f ≠ 0 then
      [abspathF fs f]
    else []) ++ find_files fs rest recurse

/-! ## `File2Strings` and the `@listfile` handling of `main` -/

/-- Python `file.readlines()`: split after every newline, keeping the
newline characters; no trailing empty line. -/
def readlinesGo (acc : Str) : Str → List Str
  | [] => if acc = [] then [] else [acc.reverse]
  | c :: cs =>
    if c = '\n' then (acc.reverse ++ ['\n']) :: readlinesGo [] cs
    else readlinesGo (c :: acc) cs

/-- Python `file.readlines()` on the whole content. -/
def readlines (s : Str) : List Str := readlinesGo [] s

/-- Python `line.rstrip("\n")`: drop all trailing newlines. -/
def rstripNl (s : Str) : Str := (s.reverse.dropWhile (fun c => c = '\n')).reverse

/-- `File2Strings` (binGraph.py lines 39-46): `None` unless the path is an
existing regular file, else its lines with trailing newlines stripped
(empty lines are kept). -/
def File2Strings (fs : FS) (filename : Str) : Option (List Str) :=
  match lookupF fs filename with
  | some (Entry.file content _) => some ((readlines content).map rstripNl)
  | _ => none

/-- The file-gathering loop of `main` (binGraph.py lines 282-292): each
argument starting with `@` is read as a list file (its lines taken
verbatim, with no re-resolution), any other argument goes through
`find_files`; an unreadable list file raises. -/
def gather_files (fs : FS) : List Str → Bool → Except Str (List Str)
  | [], _ => Except.ok []
  | a :: rest, recurse =>
    if a.head? = some '@' then
      match File2Strings fs a.tail with
      | none => Except.error "Error reading".data
      | some ls =>
        match gather_files fs rest recurse with
        | Except.ok acc => Except.ok (ls ++ acc)
        | Except.error e => Except.error e
    else
      match gather_files fs rest recurse with
      | Except.ok acc => Except.ok (find_files fs [a] recurse ++ acc)
      | Except.error e => Except.error e

/-! ## Base64 (Python `base64.b64encode` / `b64decode`) -/

/-- The standard base64 alphabet. -/
def b64chars : Str :=
  "ABCDEFGHIJKLMNOPQRSTUVWXYZabcdefghijklmnopqrstuvwxyz0123456789+/".data

/-- The base64 character for a 6-bit value. -/
def encChar (n : Nat) : Char := b64chars.getD n 'A'

/-- The 6-bit value of a base64 character. -/
def dval (c : Char) : Nat := b64chars.indexOf c

/-- Standard base64 encoding of a byte sequence (bytes as `Nat < 256`),
with `=` padding. -/
def b64encode : List Nat → Str
  | [] => []
  | [a] => [encChar (a / 4), encChar (a % 4 * 16), '=', '=']
  | [a, b] => [encChar (a / 4), encChar (a % 4 * 16 + b / 16), encChar (b % 16 * 4), '=']
  | a :: b :: c :: rest =>
    encChar (a / 4) :: encChar (a % 4 * 16 + b / 16)
      :: encChar (b % 16 * 4 + c / 64) :: encChar (c % 64) :: b64encode rest

/-- Standard base64 decoding (on well-formed input, as produced by
`b64encode`). -/
def b64decode : Str → List Nat
  | c1 :: c2 :: c3 :: c4 :: rest =>
    if c3 = '=' then [dval c1 * 4 + dval c2 / 16]
    else if c4 = '=' then
      [dval c1 * 4 + dval c2 / 16, dval c2 % 16 * 16 + dval c3 / 4]
    else
      (dval c1 * 4 + dval c2 / 16) :: (dval c2 % 16 * 16 + dval c3 / 4)
        :: (dval c3 % 4 * 64 + dval c4) :: b64decode rest
  | _ => []

/-! ## POSIX `os.path.splitext` (root part) -/

/-- Is there a non-dot character in the basename part before the extension
dot?  (`r` is the reversed remainder of the path after that dot.) -/
def hasStem (r : Str) : Bool :=
  (r.takeWhile (fun c => c ≠ '/')).any (fun c => c ≠ '.')

/-- Scan the reversed path for the extension dot. -/
def extScan : Str → Nat → Option Nat
  | [], _ => none
  | c :: cs, n =>
    if c = '/' then none
    else if c = '.' then (if hasStem cs then some (n + 1) else none)
    else extScan cs (n + 1)

/-- `os.path.splitext(p)[0]`. -/
def splitextRoot (p : Str) : Str :=
  match extScan p.reverse 0 with
  | none => p
  | some k => p.take (p.length - k)

/-! ## The configuration bundle (`args_dict`) -/

/-- The configuration dictionary handed to `generate_graphs`
(binGraph.py lines 112-141): the argparse destinations in declaration
order, the names of any module-specific options (`extra`, whose values are
opaque to the core), and the three per-iteration keys injected by the
orchestrator (lines 170-172).  The field `pfx` models the `prefix`
destination, `dummy` models `__dummy`. -/
structure Config where
  files : List Str
  recurse : Bool
  dummy : Bool
  pfx : Option Str
  save_dir : Str
  json : Bool
  graphtitle : Option Str
  showplt : Bool
  format : Str
  figsize : Nat × Nat
  dpi : Nat
  blob : Bool
  verbose : Bool
  graphtype : Str
  extra : List Str
  abs_fpath : Option Str
  fname : Option Str
  cleaned_fname : Option Str
deriving DecidableEq

/-- The keys of `args_dict`, in dictionary (insertion) order, as present
when the JSON branch runs (the three per-iteration keys have been
injected by then). -/
def configKeys (c : Config) : List Str :=
  ["files", "recurse", "__dummy", "prefix", "save_dir", "json", "graphtitle",
   "showplt", "format", "figsize", "dpi", "blob", "verbose",
   "graphtype"].map String.data
  ++ c.extra
  ++ ["abs_fpath", "fname", "cleaned_fname"].map String.data

/-- `" ".join(args_dict)` (binGraph.py line 196): joining a dict yields
its KEYS, so this is the space-separated option names — the values are
not part of it. -/
def cmdlineStr (c : Config) : Str := List.intercalate " ".data (configKeys c)

/-- `__version__` codename (binGraph.py lines 12-14). -/
def version_codename : Str := "Iron Airedale".data

/-- A JSON value as used in the artifact envelope. -/
inductive JVal where
  | jstr (s : Str)
  | jmeta (m : Nat)
  | jver (codename : Str) (digit : Nat × Nat)
deriving DecidableEq

/-- The result of a module's `generate` call: a figure handle (opaque),
the backend save options, and the metadata record (opaque). -/
structure GenResult where
  fig : Nat
  save_kwargs : List (Str × Str)
  json_data : Nat
deriving DecidableEq

/-- An observable output effect of one (file, analysis-type) iteration. -/
inductive Effect where
  | shown (fig : Nat)
  | wroteFile (path : Str) (bytes : List Nat)
  | wroteJson (path : Str) (doc : List (Str × JVal))
deriving DecidableEq

/-- The imported graph modules (binGraph.py lines 103-109), in insertion
order. -/
def graphs_keys : List Str := ["ent".data, "hist".data]

/-- The `__graphtypes__` selection (binGraph.py lines 149-153): `"all"`
selects every module, otherwise the named module (a `KeyError` aborts for
unknown names). -/
def resolve_graphtypes (gt : Str) : Option (List Str) :=
  if gt = "all".data then some graphs_keys
  else if gt ∈ graphs_keys then some [gt] else none

/-- The rendering backend (matplotlib), abstracted: figure-state
transformations and the byte serialization `savefig` performs for a given
figure, format, dpi and save options. -/
structure Backend where
  set_size_inches : Nat → Nat × Nat → Nat
  tight_layout : Nat → Nat
  savefigBytes : Nat → Str → Nat → List (Str × Str) → List Nat

/-- The output block of one iteration (binGraph.py lines 176-207): apply
`fig.set_size_inches` and `plt.tight_layout`, then either show the plot,
write the JSON envelope (to the computed path with its extension replaced
by `.json`), or save the figure to the computed path. -/
def output_step (B : Backend) (cfg : Config) (fig : Nat)
    (save_kwargs : List (Str × Str)) (json_data : Nat)
    (abs_save_fpath : Str) : Effect :=
  let fig1 := B.tight_layout (B.set_size_inches fig cfg.figsize)
  if cfg.showplt = true then Effect.shown fig1
  else if cfg.json = true then
    Effect.wroteJson (splitextRoot abs_save_fpath ++ ".json".data)
      [("info".data, JVal.jmeta json_data),
       ("graph".data,
        JVal.jstr (b64encode (B.savefigBytes fig1 cfg.format cfg.dpi save_kwargs))),
       ("cmdline".data, JVal.jstr (cmdlineStr cfg)),
       ("version".data, JVal.jver version_codename (3, 4))]
  else Effect.wroteFile abs_save_fpath
    (B.savefigBytes fig1 cfg.format cfg.dpi save_kwargs)

/-- The inner loop of `generate_graphs` over the selected graph types for
one file (binGraph.py lines 161-211): generate the names, inject the
per-iteration keys, call the module's `generate`, and render one output.
An exception from `generate` propagates (there is no handler), so the
effects so far are returned together with the error. -/
def run_types (B : Backend) (genm : Str → Config → Except Str GenResult)
    (cfg : Config) (i : Nat) (f : Str) : List Str → List Effect × Option Str
  | [] => ([], none)
  | m :: ms =>
    let r := gen_names cfg.format f cfg.save_dir cfg.pfx m
      (if cfg.files.length > 1 then some i else none)
    let cfg' := {cfg with abs_fpath := some f, fname := some r.2.1,
                          cleaned_fname := some r.2.2}
    match genm m cfg' with
    | Except.error e => ([], some e)
    | Except.ok res =>
      let eff := output_step B cfg' res.fig res.save_kwargs res.json_data r.1
      let rest := run_types B genm cfg i f ms
      (eff :: rest.1, rest.2)

/-- The outer loop of `generate_graphs` over the files (binGraph.py line
158): `enumerate` supplies the 0-based index; an error from the inner
loop aborts the remaining files. -/
def run_pairs (B : Backend) (genm : Str → Config → Except Str GenResult)
    (cfg : Config) (gts : List Str) : Nat → List Str → List Effect × Option Str
  | _, [] => ([], none)
  | i, f :: rest =>
    let inner := run_types B genm cfg i f gts
    match inner.2 with
    | some e => (inner.1, some e)
    | none =>
      let outer := run_pairs B genm cfg gts (i + 1) rest
      (inner.1 ++ outer.1, outer.2)

/-- `generate_graphs` (binGraph.py lines 112-211), returning the list of
output effects in order, plus the propagated exception if one occurred. -/
def generate_graphs (B : Backend) (genm : Str → Config → Except Str GenResult)
    (cfg : Config) : List Effect × Option Str :=
  match resolve_graphtypes cfg.graphtype with
  | none => ([], some "KeyError".data)
  | some gts => run_pairs B genm cfg gts 0 cfg.files

/-- `main` after argument parsing (binGraph.py lines 282-310): resolve the
file arguments, absolutize and check the save directory (exit 1 when it is
not a directory), select the graph types, run each module's
`args_validation` (modelled by the `validate` predicate), then call
`generate_graphs`.  There is no emptiness check on the resolved file
list. -/
def main_run (B : Backend) (genm : Str → Config → Except Str GenResult)
    (validate : Str → Config → Bool) (fs : FS) (args : Config) :
    Except Str (List Effect × Option Str) :=
  match gather_files fs args.files args.recurse with
  | Except.error e => Except.error e
  | Except.ok fl =>
    let cfg := {args with files := fl, save_dir := abspathF fs args.save_dir}
    if isdirF fs cfg.save_dir = false then Except.error "exit 1".data
    else
      match resolve_graphtypes cfg.graphtype with
      | none => Except.error "KeyError".data
      | some gts =>
        if gts.all (fun m => validate m cfg) then
          Except.ok (generate_graphs B genm cfg)
        else Except.error "args_validation".data

/-! ## Expected effects of an error-free run -/

/-- The artifact the orchestrator produces for one (file, type) pair when
`generate` succeeds, with batch index `fio`. -/
def expected_one (B : Backend) (g : Str → Config → GenResult) (cfg : Config)
    (fio : Option Nat) (f m : Str) : Effect :=
  let r := gen_names cfg.format f cfg.save_dir cfg.pfx m fio
  let cfg' := {cfg with abs_fpath := some f, fname := some r.2.1,
                        cleaned_fname := some r.2.2}
  output_step B cfg' (g m cfg').fig (g m cfg').save_kwargs (g m cfg').json_data r.1

/-- The effect list of an error-free run from start index `i`. -/
def expected_effects (B : Backend) (g : Str → Config → GenResult) (cfg : Config)
    (gts : List Str) : Nat → List Str → List Effect
  | _, [] => []
  | i, f :: rest =>
    gts.map (expected_one B g cfg (if cfg.files.length > 1 then some i else none) f)
      ++ expected_effects B g cfg gts (i + 1) rest

/-- The effect list of an error-free multi-file run: every pair of the
`i`-th file carries batch index `some i`. -/
def expected_effects_idx (B : Backend) (g : Str → Config → GenResult)
    (cfg : Config) (gts : List Str) : Nat → List Str → List Effect
  | _, [] => []
  | i, f :: rest =>
    gts.map (expected_one B g cfg (some i) f)
      ++ expected_effects_idx B g cfg gts (i + 1) rest

/-! ## JSON-mode characterization -/

/-- Lookup in the (ordered) JSON document. -/
def docLookup (key : Str) : List (Str × JVal) → Option JVal
  | [] => none
  | (k, v) :: rest => if k = key then some v else docLookup key rest

/-- The base64 string stored under `"graph"` of a JSON artifact. -/
def graphB64 : Effect → Option Str
  | Effect.wroteJson _ doc =>
    match docLookup "graph".data doc with
    | some (JVal.jstr s) => some s
    | _ => none
  | _ => none

/-- The bytes written by a file-mode artifact. -/
def fileBytes : Effect → Option (List Nat)
  | Effect.wroteFile _ bs => some bs
  | _ => none

/-- The JSON artifact of one (file, type) pair: written to the pair's
computed output path (`gen_names`) with its extension replaced by
`.json`, holding the module's metadata record, the base64 encoding of
the bytes the backend renders for the module's figure, the
configuration's key names, and the version tag. -/
def expected_json_one (B : Backend) (g : Str → Config → GenResult)
    (cfg : Config) (fio : Option Nat) (f m : Str) : Effect :=
  let r := gen_names cfg.format f cfg.save_dir cfg.pfx m fio
  let cfg' := {cfg with abs_fpath := some f, fname := some r.2.1,
                        cleaned_fname := some r.2.2}
  Effect.wroteJson (splitextRoot r.1 ++ ".json".data)
    [("info".data, JVal.jmeta (g m cfg').json_data),
     ("graph".data, JVal.jstr (b64encode (B.savefigBytes
        (B.tight_layout (B.set_size_inches (g m cfg').fig cfg.figsize))
        cfg.format cfg.dpi (g m cfg').save_kwargs))),
     ("cmdline".data, JVal.jstr (cmdlineStr cfg)),
     ("version".data, JVal.jver version_codename (3, 4))]

/-- The effect list of an error-free JSON-mode run from start index `i`:
one `expected_json_one` artifact per (file, type) pair, in order. -/
def expected_json_effects (B : Backend) (g : Str → Config → GenResult)
    (cfg : Config) (gts : List Str) : Nat → List Str → List Effect
  | _, [] => []
  | i, f :: rest =>
    gts.map (expected_json_one B g cfg
      (if cfg.files.length > 1 then some i else none) f)
      ++ expected_json_effects B g cfg gts (i + 1) rest

/-! ## Wellformed filesystems -/

/-- A valid entry name: non-empty, no separator, not `.` or `..`. -/
def validNameB (n : Str) : Bool :=
  n ≠ [] && !n.contains '/' && n ≠ ".".data && n ≠ "..".data

/-- No two children share a name. -/
def nodupKeysB : List (Str × Entry) → Bool
  | [] => true
  | (n, _) :: rest => !(rest.any (fun q => q.1 = n)) && nodupKeysB rest

mutual
/-- Wellformedness of a tree: all names valid and distinct per directory. -/
def wfEntryB : Entry → Bool
  | Entry.file _ _ => true
  | Entry.dir ch _ => nodupKeysB ch && wfChildrenB ch

/-- Wellformedness of a child list. -/
def wfChildrenB : List (Str × Entry) → Bool
  | [] => true
  | (n, e) :: rest => validNameB n && wfEntryB e && wfChildrenB rest
end

/-- The specification-side collection (`tree_files`): every regular file
in the tree below a directory that is not a symbolic link and has
non-zero size, in walk order — the files of the directory itself first,
then the non-symlink subdirectories recursively. -/
def qualFiles (p : Str) (ch : List (Str × Entry)) : List Str :=
  ch.filterMap (fun q =>
    match q.2 with
    | Entry.file content lk =>
      if lk = false ∧ content ≠ [] then some (path_join p q.1) else none
    | Entry.dir _ _ => none)

mutual
/-- All qualifying regular files in the tree at `p`, in walk order. -/
def tree_files (p : Str) : Entry → List Str
  | Entry.file _ _ => []
  | Entry.dir ch _ => qualFiles p ch ++ tree_dirs p ch

/-- Recurse into non-symlink subdirectories, in order. -/
def tree_dirs (p : Str) : List (Str × Entry) → List Str
  | [] => []
  | (n, e) :: rest =>
    (if isRealDirE e then tree_files (path_join p n) e else []) ++ tree_dirs p rest
end

/-! ## Concrete instances for witnesses and counterexamples -/

/-- A concrete rendering backend. -/
def BW : Backend := ⟨fun f _ => f, fun f => f, fun _ _ _ _ => [0, 255, 10]⟩

/-- A concrete (total) module `generate`. -/
def gW : Str → Config → GenResult := fun _ _ => ⟨0, [], 0⟩

/-- `gW` wrapped as an exception-free module. -/
def genOkW : Str → Config → Except Str GenResult := fun m c => Except.ok (gW m c)

/-- A module that raises exactly on the file `/a/m.exe`. -/
def genC2X : Str → Config → Except Str GenResult :=
  fun m c => if c.abs_fpath = some "/a/m.exe".data then Except.error "boom".data
             else Except.ok (gW m c)

/-- A concrete two-file configuration in file mode. -/
def cfgW : Config :=
  { files := ["/a/m.exe".data, "/b/n.exe".data], recurse := false, dummy := false,
    pfx := some "pre".data, save_dir := "/out".data, json := false,
    graphtitle := none, showplt := false, format := "png".data,
    figsize := (12, 4), dpi := 100, blob := false, verbose := false,
    graphtype := "ent".data, extra := ["chunks".data], abs_fpath := none,
    fname := none, cleaned_fname := none }

/-- A filesystem with just an empty `/out` directory. -/
def fsW3 : FS := ⟨Entry.dir [("out".data, Entry.dir [] false)] false, "/".data⟩

/-- Arguments whose single file input does not exist. -/
def argsW3 : Config := {cfgW with files := ["missing.bin".data]}

/-- A filesystem holding a list file without blank lines. -/
def fsW5 : FS :=
  ⟨Entry.dir [("list.txt".data, Entry.file "a.bin\nb.bin\n".data false)] false,
   "/".data⟩

/-- A filesystem holding a list file with a blank interior line. -/
def fsX5 : FS :=
  ⟨Entry.dir [("L".data, Entry.file "a.bin\n\nb.bin\n".data false)] false,
   "/".data⟩

/-- A filesystem with one absolute directory of one regular file. -/
def fsW6 : FS :=
  ⟨Entry.dir [("data".data,
    Entry.dir [("x.bin".data, Entry.file "AB".data false)] false)] false,
   "/".data⟩

/-- A filesystem where `d` is a directory relative to the working
directory `/home`. -/
def fsX6 : FS :=
  ⟨Entry.dir [("home".data,
    Entry.dir [("d".data,
      Entry.dir [("x".data, Entry.file "A".data false)] false)] false)] false,
   "/home".data⟩

/-- The JSON-mode variant of `cfgW`. -/
def cfgW7 : Config := {cfgW with json := true, showplt := false}

/-- A configuration differing from `cfgW` only in a value (dpi). -/
def cfgX7b : Config := {cfgW with dpi := 200}

/-- The interactive variant of `cfgW` (JSON also requested). -/
def cfgW8 : Config := {cfgW with showplt := true, json := true}

/-- The spec's example directory: one empty file, one symlink, one regular
non-empty file. -/
def dirC9 : Entry :=
  Entry.dir [("empty.bin".data, Entry.file [] false),
             ("link.bin".data, Entry.file "XY".data true),
             ("good.bin".data, Entry.file "AB".data false)] false

/-- A filesystem containing `dirC9` at `/data`. -/
def fsW9 : FS := ⟨Entry.dir [("data".data, dirC9)] false, "/".data⟩

/-! ## Lemmas about `replList` -/

theorem replCore_nil (pat rep : Str) : ∀ fuel, replCore pat rep fuel [] = []
  | 0 => rfl
  | _ + 1 => rfl

theorem replCore_fuel_irrel (pat rep : Str) :
    ∀ (fuel fuel' : Nat) (s : Str), s.length ≤ fuel → s.length ≤ fuel' →
      replCore pat rep fuel s = replCore pat rep fuel' s := by
  intro fuel
  induction fuel with
  | zero =>
    intro fuel' s hs _
    have : s = [] := List.length_eq_zero.mp (Nat.le_zero.mp hs)
    subst this
    cases fuel' <;> rfl
  | succ n ih =>
    intro fuel' s hs hs'
    match s, fuel' with
    | [], f' => rw [replCore_nil, replCore_nil]
    | c :: cs, 0 => exact absurd hs' (by simp)
    | c :: cs, m + 1 =>
      simp only [replCore]
      split
      · rename_i hcond
        have hpat : pat.length ≥ 1 := by
          cases pat with
          | nil => exact absurd rfl hcond.1
          | cons _ _ => simp
        have hdrop : (List.drop pat.length (c :: cs)).length ≤ n := by
          simp only [List.length_drop, List.length_cons]
          simp only [List.length_cons] at hs
          omega
        have hdrop' : (List.drop pat.length (c :: cs)).length ≤ m := by
          simp only [List.length_drop, List.length_cons]
          simp only [List.length_cons] at hs'
          omega
        rw [ih m _ hdrop hdrop']
      · have h1 : cs.length ≤ n := by simp only [List.length_cons] at hs; omega
        have h2 : cs.length ≤ m := by simp only [List.length_cons] at hs'; omega
        rw [ih m cs h1 h2]

theorem replCore_eq_replList (pat rep : Str) (fuel : Nat) (s : Str)
    (h : s.length ≤ fuel) : replCore pat rep fuel s = replList s pat rep :=
  replCore_fuel_irrel pat rep fuel s.length s h (Nat.le_refl _)

/-- Head match: replacing at an occurrence sitting at the front. -/
theorem replList_head_match (pat rest rep : Str) (hp : pat ≠ []) :
    replList (pat ++ rest) pat rep = rep ++ replList rest pat rep := by
  obtain ⟨p0, pt, rfl⟩ : ∃ p0 pt, pat = p0 :: pt := by
    cases pat with
    | nil => exact absurd rfl hp
    | cons a b => exact ⟨a, b, rfl⟩
  have hpre : (p0 :: pt).isPrefixOf ((p0 :: pt) ++ rest) = true := by
    rw [List.isPrefixOf_iff_prefix]
    exact List.prefix_append _ _
  show replCore (p0 :: pt) rep ((p0 :: pt) ++ rest).length ((p0 :: pt) ++ rest)
      = rep ++ replList rest (p0 :: pt) rep
  have hlen : ((p0 :: pt) ++ rest).length = (pt ++ rest).length + 1 := by simp
  rw [hlen]
  simp only [List.cons_append] at hpre ⊢
  simp only [replCore]
  rw [if_pos ⟨by simp, hpre⟩]
  have hdrop : List.drop (p0 :: pt).length (p0 :: (pt ++ rest)) = rest := by
    simp
  rw [hdrop]
  congr 1
  apply replCore_eq_replList
  simp

/-- One non-matching head step of `replList`. -/
theorem replList_cons_of_not_match (pat rep : Str) (c : Char) (cs : Str)
    (h : ¬ pat.isPrefixOf (c :: cs) = true) :
    replList (c :: cs) pat rep = c :: replList cs pat rep := by
  show replCore pat rep (c :: cs).length (c :: cs) = _
  have hlen : (c :: cs).length = cs.length + 1 := by simp
  rw [hlen]
  simp only [replCore]
  rw [if_neg (fun hc => h hc.2)]
  congr 1

/-- Skipping a block none of whose characters can begin an occurrence:
patterns starting with a character `a` absent from `p` never match inside
`p`, nor straddling its end. -/
theorem replList_skip_notMem (a : Char) (pt rep : Str) :
    ∀ (p rest : Str), a ∉ p →
      replList (p ++ rest) (a :: pt) rep = p ++ replList rest (a :: pt) rep := by
  intro p
  induction p with
  | nil => intro rest _; simp
  | cons c p' ih =>
    intro rest hmem
    have hne : a ≠ c := fun h => hmem (h ▸ List.mem_cons_self c p')
    have hstep : ¬ (a :: pt).isPrefixOf (c :: (p' ++ rest)) = true := by
      simp only [List.isPrefixOf, Bool.and_eq_true, beq_iff_eq]
      exact fun h => hne h.1
    rw [List.cons_append, replList_cons_of_not_match _ _ _ _ hstep,
      ih rest (fun h => hmem (List.mem_cons_of_mem c h)), List.cons_append]

/-- Skipping a block for a pattern of shape `a :: b :: pt`: impossible to
start an occurrence inside `p` when `b` occurs nowhere in `p` and `rest`
does not begin with `b`. -/
theorem replList_skip_snd (a b : Char) (pt rep : Str) :
    ∀ (p rest : Str), b ∉ p → rest.head? ≠ some b →
      replList (p ++ rest) (a :: b :: pt) rep
        = p ++ replList rest (a :: b :: pt) rep := by
  intro p
  induction p with
  | nil => intro rest _ _; simp
  | cons c p' ih =>
    intro rest hmem hrest
    have hstep : ¬ (a :: b :: pt).isPrefixOf (c :: (p' ++ rest)) = true := by
      simp only [List.isPrefixOf, Bool.and_eq_true, beq_iff_eq]
      intro hh
      rcases hh with ⟨_, hh2⟩
      match p', hh2 with
      | [], hh2 =>
        match rest, hh2 with
        | d :: rs, hh2 =>
          have : b = d := by
            simp only [List.nil_append, List.isPrefixOf, Bool.and_eq_true,
              beq_iff_eq] at hh2
            exact hh2.1
          exact hrest (by simp [this.symm])
      | y :: p'', hh2 =>
        have : b = y := by
          simp only [List.cons_append, List.isPrefixOf, Bool.and_eq_true,
            beq_iff_eq] at hh2
          exact hh2.1
        refine hmem ?_
        rw [this]
        exact List.mem_cons_of_mem c (List.mem_cons_self y p'')
    rw [List.cons_append, replList_cons_of_not_match _ _ _ _ hstep,
      ih rest (fun h => hmem (List.mem_cons_of_mem c h)) hrest, List.cons_append]

/-- Skipping a concrete block certified by `cannotStartIn`. -/
theorem replList_skip_safe (pat rep : Str) :
    ∀ (p rest : Str), cannotStartIn p pat = true →
      replList (p ++ rest) pat rep = p ++ replList rest pat rep := by
  intro p
  induction p with
  | nil => intro rest _; simp
  | cons c p' ih =>
    intro rest hsafe
    simp only [cannotStartIn, Bool.and_eq_true, Bool.not_eq_true'] at hsafe
    have hstep : ¬ pat.isPrefixOf (c :: (p' ++ rest)) = true := by
      intro hh
      have h1 : pat <+: (c :: p') ++ rest := by
        rw [← List.isPrefixOf_iff_prefix]
        simpa using hh
      have h2 : (c :: p') <+: (c :: p') ++ rest := List.prefix_append _ _
      have := List.prefix_or_prefix_of_prefix h1 h2
      have hcompat : compatB (c :: p') pat = true := by
        unfold compatB
        rcases this with h | h
        · simp [List.isPrefixOf_iff_prefix, h]
        · simp [List.isPrefixOf_iff_prefix, h]
      rw [hsafe.1] at hcompat
      exact Bool.false_ne_true hcompat
    rw [List.cons_append, replList_cons_of_not_match _ _ _ _ hstep,
      ih rest hsafe.2, List.cons_append]

theorem replList_nil (pat rep : Str) : replList [] pat rep = [] := rfl

/-- A string certified by `cannotStartIn` is returned unchanged. -/
theorem replList_no_occ (s pat rep : Str) (hsafe : cannotStartIn s pat = true) :
    replList s pat rep = s := by
  have h := replList_skip_safe pat rep s [] hsafe
  rw [List.append_nil, replList_nil, List.append_nil] at h
  exact h

/-- Replacing a whole-string occurrence. -/
theorem replList_self (pat rep : Str) (h : pat ≠ []) :
    replList pat pat rep = rep := by
  have hh := replList_head_match pat [] rep h
  rw [List.append_nil, replList_nil, List.append_nil] at hh
  exact hh

/-- `Nat.digitChar` never produces an opening brace on actual digits
(base 10 only ever feeds it values below 10). -/
theorem digitChar_ne_brace : ∀ (n : Nat), n < 10 → Nat.digitChar n ≠ '\x7b' := by
  decide

theorem toDigitsCore_no_brace :
    ∀ (f n : Nat) (acc : Str), '\x7b' ∉ acc → '\x7b' ∉ Nat.toDigitsCore 10 f n acc := by
  intro f
  induction f with
  | zero => intro n acc h; exact h
  | succ m ih =>
    intro n acc h
    simp only [Nat.toDigitsCore]
    have hdig : Nat.digitChar (n % 10) ≠ '\x7b' :=
      digitChar_ne_brace _ (Nat.mod_lt _ (by decide))
    split
    · intro hmem
      rcases List.mem_cons.mp hmem with h1 | h2
      · exact hdig h1.symm
      · exact h h2
    · refine ih _ _ ?_
      intro hmem
      rcases List.mem_cons.mp hmem with h1 | h2
      · exact hdig h1.symm
      · exact h h2

/-- The decimal representation of a natural number has no brace. -/
theorem natStr_no_brace (n : Nat) : '\x7b' ∉ natStr n :=
  toDigitsCore_no_brace _ _ [] (by simp)

/-- Sanitized names have no brace (they are alphanumeric-only). -/
theorem clean_fname_no_brace (s : Str) : '\x7b' ∉ clean_fname s := by
  intro h
  have hh := List.mem_filter.mp h
  exact absurd hh.2 (by decide)

theorem e_pGty : pGty = '\x7b' :: gtyT := by decide
theorem e_pFdx : pFdx = '\x7b' :: fdxT := by decide
theorem e_pFdxD : pFdxD = '\x7b' :: fdxDT := by decide
theorem e_pCfn : pCfn = '\x7b' :: cfnT := by decide
theorem e_pCfnD : pCfnD = '-' :: '\x7b' :: cfnT := by decide
theorem e_pFmt : pFmt = '\x7b' :: fmtT := by decide

/-! ## Pipeline lemmas for `gen_names` -/

theorem c1_s1t (p : Str) :
    replList tplFull pPfx p = p ++ (rA ++ (pGty ++ rT)) := by
  have e : tplFull = pPfx ++ (rA ++ (pGty ++ rT)) := by decide
  rw [e, replList_head_match _ _ _ (by decide), replList_no_occ _ _ _ (by decide)]

theorem c1_s1f :
    replList tplFull pPfxD [] = pFdxD ++ (pGty ++ rT) := by
  have e : tplFull = pPfxD ++ (pFdxD ++ (pGty ++ rT)) := by decide
  rw [e, replList_head_match _ _ _ (by decide), replList_no_occ _ _ _ (by decide),
    List.nil_append]

theorem c1_s2t (p g : Str) (hp : '\x7b' ∉ p) :
    replList (p ++ (rA ++ (pGty ++ rT))) pGty g = p ++ (rA ++ (g ++ rT)) := by
  rw [e_pGty, replList_skip_notMem _ _ _ _ _ hp,
    replList_skip_safe _ _ rA _ (by decide),
    replList_head_match _ _ _ (by simp),
    replList_no_occ _ _ _ (by decide)]

theorem c1_s2f (g : Str) :
    replList (pFdxD ++ (pGty ++ rT)) pGty g = pFdxD ++ (g ++ rT) := by
  rw [e_pGty, replList_skip_safe _ _ pFdxD _ (by decide),
    replList_head_match _ _ _ (by simp),
    replList_no_occ _ _ _ (by decide)]

theorem c1_s3t_some (p g d : Str) (hp : '\x7b' ∉ p) (hg : '\x7b' ∉ g) :
    replList (p ++ (rA ++ (g ++ rT))) pFdx d
      = p ++ (dashS ++ (d ++ (dashS ++ (g ++ rT)))) := by
  have e : rA = dashS ++ (pFdx ++ dashS) := by decide
  rw [e, e_pFdx]
  have e2 : p ++ ((dashS ++ (('\x7b' :: fdxT) ++ dashS)) ++ (g ++ rT))
      = p ++ (dashS ++ (('\x7b' :: fdxT) ++ (dashS ++ (g ++ rT)))) := by
    simp [List.append_assoc]
  rw [e2, replList_skip_notMem _ _ _ _ _ hp,
    replList_skip_safe _ _ dashS _ (by decide),
    replList_head_match _ _ _ (by simp),
    replList_skip_safe _ _ dashS _ (by decide),
    replList_skip_notMem _ _ _ _ _ hg,
    replList_no_occ _ _ _ (by decide)]

theorem c1_s3f_some (g d : Str) (hg : '\x7b' ∉ g) :
    replList (pFdxD ++ (g ++ rT)) pFdx d = d ++ (dashS ++ (g ++ rT)) := by
  have e : pFdxD = pFdx ++ dashS := by decide
  rw [e, e_pFdx]
  have e2 : (('\x7b' :: fdxT) ++ dashS) ++ (g ++ rT)
      = ('\x7b' :: fdxT) ++ (dashS ++ (g ++ rT)) := by
    simp [List.append_assoc]
  rw [e2, replList_head_match _ _ _ (by simp),
    replList_skip_safe _ _ dashS _ (by decide),
    replList_skip_notMem _ _ _ _ _ hg,
    replList_no_occ _ _ _ (by decide)]

theorem c1_s3t_none (p g : Str) (hp : '\x7b' ∉ p) (hg : '\x7b' ∉ g) :
    replList (p ++ (rA ++ (g ++ rT))) pFdxD [] = p ++ (dashS ++ (g ++ rT)) := by
  have e : rA = dashS ++ pFdxD := by decide
  rw [e, e_pFdxD]
  have e2 : p ++ ((dashS ++ ('\x7b' :: fdxDT)) ++ (g ++ rT))
      = p ++ (dashS ++ (('\x7b' :: fdxDT) ++ (g ++ rT))) := by
    simp [List.append_assoc]
  rw [e2, replList_skip_notMem _ _ _ _ _ hp,
    replList_skip_safe _ _ dashS _ (by decide),
    replList_head_match _ _ _ (by simp),
    replList_skip_notMem _ _ _ _ _ hg,
    replList_no_occ _ _ _ (by decide), List.nil_append]

theorem c1_s3f_none (g : Str) (hg : '\x7b' ∉ g) :
    replList (pFdxD ++ (g ++ rT)) pFdxD [] = g ++ rT := by
  rw [replList_head_match _ _ _ (by decide), List.nil_append, e_pFdxD,
    replList_skip_notMem _ _ _ _ _ hg,
    replList_no_occ _ _ _ (by decide)]

/-- Replacing `"{cleaned_fname}"` after a brace-free head `w`. -/
theorem c1_sCfn (w cleaned : Str) (hw : '\x7b' ∉ w) :
    replList (w ++ rT) pCfn cleaned = w ++ (dashS ++ (cleaned ++ rDot)) := by
  have e : rT = dashS ++ (pCfn ++ rDot) := by decide
  rw [e, e_pCfn, replList_skip_notMem _ _ _ _ _ hw,
    replList_skip_safe _ _ dashS _ (by decide),
    replList_head_match _ _ _ (by simp),
    replList_no_occ _ _ _ (by decide)]

/-- Removing `"-{cleaned_fname}"` after a brace-free head `w`. -/
theorem c1_sCfnD (w : Str) (hw : '\x7b' ∉ w) :
    replList (w ++ rT) pCfnD [] = w ++ rDot := by
  have e : rT = pCfnD ++ rDot := by decide
  rw [e, e_pCfnD,
    replList_skip_snd _ _ _ _ _ _ hw (by decide),
    replList_head_match _ _ _ (by simp),
    replList_no_occ _ _ _ (by decide), List.nil_append]

/-- Substituting the output format after a brace-free head `w`. -/
theorem c1_s4 (w f : Str) (hw : '\x7b' ∉ w) :
    replList (w ++ rDot) pFmt f = w ++ (dotS ++ f) := by
  have e : rDot = dotS ++ pFmt := by decide
  rw [e, e_pFmt, replList_skip_notMem _ _ _ _ _ hw,
    replList_skip_safe _ _ dotS _ (by decide),
    replList_self _ _ (by simp)]

theorem not_mem_append2 {a : Char} {x y : Str} (hx : a ∉ x) (hy : a ∉ y) :
    a ∉ x ++ y := by
  simp only [List.mem_append]
  intro h
  rcases h with h | h
  · exact hx h
  · exact hy h

/-- Closed form of `gen_names`: the returned output path is
`outputDir / assembled_name`, provided the caller-supplied strings contain
no opening brace (brace characters would collide with the template's
placeholder syntax). -/
theorem gen_names_eq (ffrmt fp dir : Str) (o : Option Str) (g : Str)
    (io : Option Nat) (ho : '\x7b' ∉ o.getD []) (hg : '\x7b' ∉ g) :
    gen_names ffrmt fp dir o g io
      = (path_join dir (assembled_name o g (clean_fname (basename fp)) ffrmt io),
         basename fp, clean_fname (basename fp)) := by
  have hdash : '\x7b' ∉ dashS := by decide
  have hclean : '\x7b' ∉ clean_fname (basename fp) := clean_fname_no_brace _
  cases io with
  | none =>
    by_cases ht : pyTruthyStr o = true
    · simp only [gen_names]
      rw [if_pos ht]
      rw [c1_s1t, c1_s2t _ _ ho, c1_s3t_none _ _ ho hg]
      have e : (o.getD []) ++ (dashS ++ (g ++ rT))
          = ((o.getD []) ++ (dashS ++ g)) ++ rT := by
        simp [List.append_assoc]
      have hw : '\x7b' ∉ (o.getD []) ++ (dashS ++ g) :=
        not_mem_append2 ho (not_mem_append2 hdash hg)
      rw [e, c1_sCfnD _ hw, c1_s4 _ _ hw]
      simp [assembled_name, segPfxStr, segIdx, ht, List.append_assoc]
    · simp only [gen_names]
      rw [if_neg ht]
      rw [c1_s1f, c1_s2f, c1_s3f_none _ hg, c1_sCfnD _ hg, c1_s4 _ _ hg]
      simp [assembled_name, segPfxStr, segIdx, ht, List.append_assoc]
  | some i =>
    have hd : '\x7b' ∉ natStr i := natStr_no_brace i
    by_cases ht : pyTruthyStr o = true
    · simp only [gen_names]
      rw [if_pos ht]
      rw [c1_s1t, c1_s2t _ _ ho, c1_s3t_some _ _ _ ho hg]
      have e : (o.getD []) ++ (dashS ++ (natStr i ++ (dashS ++ (g ++ rT))))
          = ((o.getD []) ++ (dashS ++ (natStr i ++ (dashS ++ g)))) ++ rT := by
        simp [List.append_assoc]
      have hw1 : '\x7b' ∉ (o.getD []) ++ (dashS ++ (natStr i ++ (dashS ++ g))) :=
        not_mem_append2 ho (not_mem_append2 hdash
          (not_mem_append2 hd (not_mem_append2 hdash hg)))
      rw [e, c1_sCfn _ _ hw1]
      have e2 : ((o.getD []) ++ (dashS ++ (natStr i ++ (dashS ++ g))))
            ++ (dashS ++ (clean_fname (basename fp) ++ rDot))
          = (((o.getD []) ++ (dashS ++ (natStr i ++ (dashS ++ g))))
            ++ (dashS ++ clean_fname (basename fp))) ++ rDot := by
        simp [List.append_assoc]
      have hw2 : '\x7b' ∉ ((o.getD []) ++ (dashS ++ (natStr i ++ (dashS ++ g))))
          ++ (dashS ++ clean_fname (basename fp)) :=
        not_mem_append2 hw1 (not_mem_append2 hdash hclean)
      rw [e2, c1_s4 _ _ hw2]
      simp [assembled_name, segPfxStr, segIdx, ht, List.append_assoc]
    · simp only [gen_names]
      rw [if_neg ht]
      rw [c1_s1f, c1_s2f, c1_s3f_some _ _ hg]
      have e : natStr i ++ (dashS ++ (g ++ rT))
          = (natStr i ++ (dashS ++ g)) ++ rT := by
        simp [List.append_assoc]
      have hw1 : '\x7b' ∉ natStr i ++ (dashS ++ g) :=
        not_mem_append2 hd (not_mem_append2 hdash hg)
      rw [e, c1_sCfn _ _ hw1]
      have e2 : (natStr i ++ (dashS ++ g))
            ++ (dashS ++ (clean_fname (basename fp) ++ rDot))
          = ((natStr i ++ (dashS ++ g))
            ++ (dashS ++ clean_fname (basename fp))) ++ rDot := by
        simp [List.append_assoc]
      have hw2 : '\x7b' ∉ (natStr i ++ (dashS ++ g))
          ++ (dashS ++ clean_fname (basename fp)) :=
        not_mem_append2 hw1 (not_mem_append2 hdash hclean)
      rw [e2, c1_s4 _ _ hw2]
      simp [assembled_name, segPfxStr, segIdx, ht, List.append_assoc]

/-! ## Base64 round-trip -/

theorem dval_encChar : ∀ n, n < 64 → dval (encChar n) = n ∧ encChar n ≠ '=' := by
  decide

theorem b64_roundtrip :
    ∀ (bs : List Nat), (∀ x ∈ bs, x < 256) → b64decode (b64encode bs) = bs
  | [], _ => rfl
  | [a], h => by
    have ha : a < 256 := h a (by simp)
    have h1 := dval_encChar (a / 4) (by omega)
    have h2 := dval_encChar (a % 4 * 16) (by omega)
    show b64decode [encChar (a / 4), encChar (a % 4 * 16), '=', '='] = [a]
    simp only [b64decode, if_pos rfl]
    rw [h1.1, h2.1]
    have e0 : a / 4 * 4 + a % 4 * 16 / 16 = a := by omega
    rw [e0]
    simp
  | [a, b], h => by
    have ha : a < 256 := h a (by simp)
    have hb : b < 256 := h b (by simp)
    have h1 := dval_encChar (a / 4) (by omega)
    have h2 := dval_encChar (a % 4 * 16 + b / 16) (by omega)
    have h3 := dval_encChar (b % 16 * 4) (by omega)
    show b64decode [encChar (a / 4), encChar (a % 4 * 16 + b / 16),
      encChar (b % 16 * 4), '='] = [a, b]
    simp only [b64decode, if_neg h3.2, if_pos rfl]
    rw [h1.1, h2.1, h3.1]
    have e1 : a / 4 * 4 + (a % 4 * 16 + b / 16) / 16 = a := by omega
    have e2 : (a % 4 * 16 + b / 16) % 16 * 16 + b % 16 * 4 / 4 = b := by omega
    rw [e1, e2]
    simp
  | a :: b :: c :: d :: rest, h => by
    have ha : a < 256 := h a (by simp)
    have hb : b < 256 := h b (by simp)
    have hc : c < 256 := h c (by simp)
    have h1 := dval_encChar (a / 4) (by omega)
    have h2 := dval_encChar (a % 4 * 16 + b / 16) (by omega)
    have h3 := dval_encChar (b % 16 * 4 + c / 64) (by omega)
    have h4 := dval_encChar (c % 64) (by omega)
    have ih := b64_roundtrip (d :: rest) (fun x hx => h x (by simp at hx ⊢; tauto))
    show b64decode (encChar (a / 4) :: encChar (a % 4 * 16 + b / 16)
      :: encChar (b % 16 * 4 + c / 64) :: encChar (c % 64)
      :: b64encode (d :: rest)) = a :: b :: c :: d :: rest
    simp only [b64decode, if_neg h3.2, if_neg h4.2]
    rw [h1.1, h2.1, h3.1, h4.1, ih]
    have e1 : a / 4 * 4 + (a % 4 * 16 + b / 16) / 16 = a := by omega
    have e2 : (a % 4 * 16 + b / 16) % 16 * 16 + (b % 16 * 4 + c / 64) / 4 = b := by
      omega
    have e3 : (b % 16 * 4 + c / 64) % 4 * 64 + c % 64 = c := by omega
    rw [e1, e2, e3]
  | [a, b, c], h => by
    have ha : a < 256 := h a (by simp)
    have hb : b < 256 := h b (by simp)
    have hc : c < 256 := h c (by simp)
    have h1 := dval_encChar (a / 4) (by omega)
    have h2 := dval_encChar (a % 4 * 16 + b / 16) (by omega)
    have h3 := dval_encChar (b % 16 * 4 + c / 64) (by omega)
    have h4 := dval_encChar (c % 64) (by omega)
    show b64decode (encChar (a / 4) :: encChar (a % 4 * 16 + b / 16)
      :: encChar (b % 16 * 4 + c / 64) :: encChar (c % 64) :: b64encode []) = [a, b, c]
    simp only [b64encode, b64decode, if_neg h3.2, if_neg h4.2]
    rw [h1.1, h2.1, h3.1, h4.1]
    have e1 : a / 4 * 4 + (a % 4 * 16 + b / 16) / 16 = a := by omega
    have e2 : (a % 4 * 16 + b / 16) % 16 * 16 + (b % 16 * 4 + c / 64) / 4 = b := by
      omega
    have e3 : (b % 16 * 4 + c / 64) % 4 * 64 + c % 64 = c := by omega
    rw [e1, e2, e3]

theorem run_types_ok (B : Backend) (g : Str → Config → GenResult) (cfg : Config)
    (i : Nat) (f : Str) (gts : List Str) :
    run_types B (fun m c => Except.ok (g m c)) cfg i f gts
      = (gts.map (expected_one B g cfg
          (if cfg.files.length > 1 then some i else none) f), none) := by
  induction gts with
  | nil => rfl
  | cons m ms ih =>
    simp only [run_types, List.map_cons, ih]
    rfl

theorem run_pairs_ok (B : Backend) (g : Str → Config → GenResult) (cfg : Config)
    (gts : List Str) :
    ∀ (i : Nat) (fl : List Str),
      run_pairs B (fun m c => Except.ok (g m c)) cfg gts i fl
        = (expected_effects B g cfg gts i fl, none) := by
  intro i fl
  induction fl generalizing i with
  | nil => rfl
  | cons f rest ih =>
    simp only [run_pairs, run_types_ok, expected_effects, ih]

theorem generate_graphs_ok (B : Backend) (g : Str → Config → GenResult)
    (cfg : Config) (gts : List Str)
    (hgt : resolve_graphtypes cfg.graphtype = some gts) :
    generate_graphs B (fun m c => Except.ok (g m c)) cfg
      = (expected_effects B g cfg gts 0 cfg.files, none) := by
  simp only [generate_graphs, hgt, run_pairs_ok]

theorem expected_effects_of_multi (B : Backend) (g : Str → Config → GenResult)
    (cfg : Config) (gts : List Str) (h : cfg.files.length > 1) :
    ∀ (i : Nat) (fl : List Str),
      expected_effects B g cfg gts i fl = expected_effects_idx B g cfg gts i fl := by
  intro i fl
  induction fl generalizing i with
  | nil => rfl
  | cons f rest ih =>
    simp only [expected_effects, expected_effects_idx, if_pos h, ih]

/-! ## Interactive mode writes nothing -/

theorem output_step_shown (B : Backend) (cfg : Config) (fig : Nat)
    (kw : List (Str × Str)) (jd : Nat) (p : Str) (h : cfg.showplt = true) :
    output_step B cfg fig kw jd p
      = Effect.shown (B.tight_layout (B.set_size_inches fig cfg.figsize)) := by
  simp [output_step, h]

theorem run_types_shown (B : Backend) (genm : Str → Config → Except Str GenResult)
    (cfg : Config) (i : Nat) (f : Str) (h : cfg.showplt = true) :
    ∀ (gts : List Str), ∀ eff ∈ (run_types B genm cfg i f gts).1,
      ∃ fg, eff = Effect.shown fg := by
  intro gts
  induction gts with
  | nil => intro eff heff; simp [run_types] at heff
  | cons m ms ih =>
    intro eff heff
    simp only [run_types] at heff
    rcases hgen : genm m _ with e | res
    · rw [hgen] at heff
      simp at heff
    · rw [hgen] at heff
      simp only [List.mem_cons] at heff
      rcases heff with heff | heff
      · subst heff
        exact ⟨_, output_step_shown _ _ _ _ _ _ h⟩
      · exact ih eff heff

theorem run_pairs_shown (B : Backend) (genm : Str → Config → Except Str GenResult)
    (cfg : Config) (gts : List Str) (h : cfg.showplt = true) :
    ∀ (fl : List Str) (i : Nat), ∀ eff ∈ (run_pairs B genm cfg gts i fl).1,
      ∃ fg, eff = Effect.shown fg := by
  intro fl
  induction fl with
  | nil => intro i eff heff; simp [run_pairs] at heff
  | cons f rest ih =>
    intro i eff heff
    simp only [run_pairs] at heff
    rcases hone : (run_types B genm cfg i f gts).2 with _ | e
    · rw [hone] at heff
      simp only [List.mem_append] at heff
      rcases heff with heff | heff
      · exact run_types_shown B genm cfg i f h gts eff heff
      · exact ih (i + 1) eff heff
    · rw [hone] at heff
      exact run_types_shown B genm cfg i f h gts eff heff

/-! ## A failing `generate` aborts the run -/

theorem run_types_agree (B : Backend) (g : Str → Config → GenResult) (msg : Str)
    (fbad : Str) (cfg : Config) (i : Nat) (f : Str) (hne : f ≠ fbad) :
    ∀ (gts : List Str),
      run_types B (fun m c => if c.abs_fpath = some fbad then Except.error msg
        else Except.ok (g m c)) cfg i f gts
      = run_types B (fun m c => Except.ok (g m c)) cfg i f gts := by
  intro gts
  induction gts with
  | nil => rfl
  | cons m ms ih =>
    simp only [run_types, ih]
    simp [hne]

theorem run_types_fail (B : Backend) (g : Str → Config → GenResult) (msg : Str)
    (fbad : Str) (cfg : Config) (i : Nat) (m : Str) (ms : List Str) :
    run_types B (fun m c => if c.abs_fpath = some fbad then Except.error msg
      else Except.ok (g m c)) cfg i fbad (m :: ms) = ([], some msg) := by
  simp [run_types]

theorem run_pairs_abort (B : Backend) (g : Str → Config → GenResult) (msg : Str)
    (fbad : Str) (cfg : Config) (m : Str) (ms : List Str) (rest : List Str) :
    ∀ (done : List Str) (i : Nat), fbad ∉ done →
      run_pairs B (fun m c => if c.abs_fpath = some fbad then Except.error msg
        else Except.ok (g m c)) cfg (m :: ms) i (done ++ fbad :: rest)
      = (expected_effects B g cfg (m :: ms) i done, some msg) := by
  intro done
  induction done with
  | nil =>
    intro i _
    simp only [List.nil_append, run_pairs, run_types_fail, expected_effects]
  | cons f' done' ih =>
    intro i hmem
    have hne : f' ≠ fbad := fun h => hmem (h ▸ List.mem_cons_self f' done')
    simp only [List.cons_append, run_pairs,
      run_types_agree B g msg fbad cfg i f' hne, run_types_ok, List.append_eq,
      ih (i + 1) (fun h => hmem (List.mem_cons_of_mem f' h)), expected_effects]

theorem cmdlineStr_update (cfg : Config) (a b c : Option Str) :
    cmdlineStr {cfg with abs_fpath := a, fname := b, cleaned_fname := c}
      = cmdlineStr cfg := rfl

theorem output_step_json (B : Backend) (cfg : Config) (fig : Nat)
    (kw : List (Str × Str)) (jd : Nat) (p : Str)
    (hs : cfg.showplt = false) (hj : cfg.json = true) :
    output_step B cfg fig kw jd p
      = Effect.wroteJson (splitextRoot p ++ ".json".data)
        [("info".data, JVal.jmeta jd),
         ("graph".data, JVal.jstr (b64encode (B.savefigBytes
            (B.tight_layout (B.set_size_inches fig cfg.figsize))
            cfg.format cfg.dpi kw))),
         ("cmdline".data, JVal.jstr (cmdlineStr cfg)),
         ("version".data, JVal.jver version_codename (3, 4))] := by
  simp [output_step, hs, hj]

theorem expected_one_json (B : Backend) (g : Str → Config → GenResult)
    (cfg : Config) (fio : Option Nat) (f m : Str)
    (hs : cfg.showplt = false) (hj : cfg.json = true) :
    expected_one B g cfg fio f m = expected_json_one B g cfg fio f m := by
  unfold expected_one expected_json_one
  exact output_step_json B _ _ _ _ _ hs hj

theorem expected_effects_json (B : Backend) (g : Str → Config → GenResult)
    (cfg : Config) (gts : List Str)
    (hs : cfg.showplt = false) (hj : cfg.json = true) :
    ∀ (i : Nat) (fl : List Str),
      expected_effects B g cfg gts i fl
        = expected_json_effects B g cfg gts i fl := by
  intro i fl
  induction fl generalizing i with
  | nil => rfl
  | cons f rest ih =>
    simp only [expected_effects, expected_json_effects, ih]
    have he : expected_one B g cfg
        (if cfg.files.length > 1 then some i else none) f
        = expected_json_one B g cfg
          (if cfg.files.length > 1 then some i else none) f :=
      funext fun m => expected_one_json B g cfg _ f m hs hj
    rw [he]

/-! ## Path component lemmas -/

theorem splitChar_ne_nil (d : Char) : ∀ (s : Str), splitChar d s ≠ [] := by
  intro s
  cases s with
  | nil => simp [splitChar]
  | cons c cs =>
    simp only [splitChar]
    rcases h : splitChar d cs with _ | ⟨r, rs⟩
    · simp
    · by_cases hc : c = d <;> simp [hc]

theorem splitChar_append (d : Char) :
    ∀ (a b : Str), splitChar d (a ++ d :: b) = splitChar d a ++ splitChar d b := by
  intro a
  induction a with
  | nil =>
    intro b
    simp only [List.nil_append, splitChar]
    rcases h : splitChar d b with _ | ⟨r, rs⟩
    · exact absurd h (splitChar_ne_nil d b)
    · simp [splitChar]
  | cons c cs ih =>
    intro b
    simp only [List.cons_append, splitChar, List.append_eq]
    rw [ih b]
    rcases h : splitChar d cs with _ | ⟨r, rs⟩
    · exact absurd h (splitChar_ne_nil d cs)
    · by_cases hc : c = d <;> simp [hc]

theorem pathComps_append (a b : Str) :
    pathComps (a ++ '/' :: b) = pathComps a ++ pathComps b := by
  simp [pathComps, splitChar_append, List.filter_append]

theorem splitChar_no_delim (d : Char) :
    ∀ (s : Str), s.contains d = false → splitChar d s = [s] := by
  intro s
  induction s with
  | nil => intro _; rfl
  | cons c cs ih =>
    intro h
    simp only [List.contains_cons, Bool.or_eq_false_iff] at h
    have hc : c ≠ d := by
      intro hh
      rw [hh] at h
      simp at h
    simp only [splitChar, ih h.2]
    simp [hc]

theorem pathComps_single (n : Str) (hn : validNameB n = true) : pathComps n = [n] := by
  simp only [validNameB, Bool.and_eq_true, Bool.not_eq_true', bne_iff_ne,
    decide_eq_true_eq] at hn
  obtain ⟨⟨⟨h1, h2⟩, h3⟩, _⟩ := hn
  simp only [pathComps, splitChar_no_delim '/' n h2]
  simp [h1, h3]

theorem pathComps_nil : pathComps [] = [] := by decide

/-- Names never start with the separator. -/
theorem validName_head (n : Str) (hn : validNameB n = true) : n.head? ≠ some '/' := by
  simp only [validNameB, Bool.and_eq_true, Bool.not_eq_true', bne_iff_ne,
    decide_eq_true_eq] at hn
  obtain ⟨⟨⟨h1, h2⟩, _⟩, _⟩ := hn
  cases n with
  | nil => simp
  | cons c cs =>
    simp only [List.head?_cons]
    intro hc
    have hcd : c = '/' := Option.some.inj hc
    rw [hcd] at h2
    simp [List.contains_cons] at h2

theorem isAbs_append (p q : Str) (hp : p ≠ []) : isAbsStr (p ++ q) = isAbsStr p := by
  cases p with
  | nil => exact absurd rfl hp
  | cons c cs => simp [isAbsStr]

theorem compsUsed_join (fs : FS) (p n : Str) (hn : validNameB n = true) :
    compsUsed fs (path_join p n) = compsUsed fs p ++ [n] := by
  have hhead : n.head? ≠ some '/' := validName_head n hn
  have hsingle : pathComps n = [n] := pathComps_single n hn
  have habs : isAbsStr n = false := by
    simp only [isAbsStr, decide_eq_false_iff_not]
    exact hhead
  by_cases hp : p = []
  · subst hp
    have hj : path_join [] n = n := by
      simp [path_join, if_neg hhead]
    rw [hj]
    have habs0 : isAbsStr [] = false := by decide
    simp [compsUsed, pathComps_nil, hsingle, habs, habs0]
  · by_cases hlast : p.getLast? = some '/'
    · obtain ⟨p', rfl⟩ := List.getLast?_eq_some_iff.mp hlast
      have hj : path_join (p' ++ ['/']) n = (p' ++ ['/']) ++ n := by
        simp [path_join, if_neg hhead, hlast]
      rw [hj]
      have e1 : (p' ++ ['/']) ++ n = p' ++ '/' :: n := by simp
      have e2 : p' ++ ['/'] = p' ++ '/' :: ([] : Str) := by simp
      have habs2 : isAbsStr ((p' ++ ['/']) ++ n) = isAbsStr (p' ++ ['/']) :=
        isAbs_append _ _ hp
      simp only [compsUsed, habs2]
      rw [e1, pathComps_append]
      conv_rhs => rw [e2, pathComps_append]
      simp [hsingle, pathComps_nil, List.append_assoc]
    · have hj : path_join p n = p ++ '/' :: n := by
        simp only [path_join, if_neg hhead]
        rw [if_neg]
        simp [hp, hlast]
      rw [hj]
      have habs2 : isAbsStr (p ++ '/' :: n) = isAbsStr p := isAbs_append _ _ hp
      simp only [compsUsed, habs2]
      rw [pathComps_append]
      simp [hsingle, List.append_assoc]

theorem findPair_of_mem (n : Str) (e : Entry) :
    ∀ (ch : List (Str × Entry)), nodupKeysB ch = true → (n, e) ∈ ch →
      findPair n ch = some e := by
  intro ch
  induction ch with
  | nil => intro _ h; simp at h
  | cons q rest ih =>
    intro hnd hmem
    obtain ⟨m, e'⟩ := q
    simp only [nodupKeysB, Bool.and_eq_true, Bool.not_eq_true'] at hnd
    rcases List.mem_cons.mp hmem with h | h
    · obtain ⟨h1, h2⟩ := Prod.mk.injEq .. ▸ h
      · simp only [findPair]
        rw [if_pos]
        · rw [Prod.mk.injEq] at h
          exact congrArg some h.2.symm ▸ rfl
        · rw [Prod.mk.injEq] at h
          exact h.1.symm
    · have hne : m ≠ n := by
        intro hh
        subst hh
        have : rest.any (fun q => q.1 = m) = true := by
          apply List.any_eq_true.mpr
          exact ⟨(m, e), h, by simp⟩
        rw [this] at hnd
        exact absurd hnd.1 (by simp)
      simp only [findPair, if_neg hne]
      exact ih hnd.2 h

theorem lookupE_append (n : Str) (e' : Entry) :
    ∀ (cs : List Str) (root : Entry) (ch : List (Str × Entry)) (lk : Bool),
      lookupE cs root = some (Entry.dir ch lk) → findPair n ch = some e' →
      lookupE (cs ++ [n]) root = some e' := by
  intro cs
  induction cs with
  | nil =>
    intro root ch lk h1 h2
    have : root = Entry.dir ch lk := by
      simpa [lookupE] using h1
    subst this
    simp only [List.nil_append, lookupE, h2]
  | cons c cs' ih =>
    intro root ch lk h1 h2
    cases root with
    | file _ _ => simp [lookupE] at h1
    | dir ch0 lk0 =>
      simp only [lookupE] at h1
      simp only [List.cons_append, lookupE]
      rcases hf : findPair c ch0 with _ | e0
      · rw [hf] at h1
        simp at h1
      · rw [hf] at h1
        exact ih e0 ch lk h1 h2

theorem findPair_mem (n : Str) (e : Entry) :
    ∀ (ch : List (Str × Entry)), findPair n ch = some e → (n, e) ∈ ch := by
  intro ch
  induction ch with
  | nil => intro h; simp [findPair] at h
  | cons q rest ih =>
    intro h
    obtain ⟨m, e'⟩ := q
    simp only [findPair] at h
    by_cases hm : m = n
    · rw [if_pos hm] at h
      subst hm
      simp only [Option.some.injEq] at h
      subst h
      exact List.mem_cons_self _ _
    · rw [if_neg hm] at h
      exact List.mem_cons_of_mem _ (ih h)

theorem wfChildren_mem :
    ∀ (ch : List (Str × Entry)), wfChildrenB ch = true →
      ∀ q ∈ ch, validNameB q.1 = true ∧ wfEntryB q.2 = true := by
  intro ch
  induction ch with
  | nil => intro _ q h; simp at h
  | cons r rest ih =>
    intro hwf q hq
    obtain ⟨m, e⟩ := r
    simp only [wfChildrenB, Bool.and_eq_true] at hwf
    rcases List.mem_cons.mp hq with h | h
    · subst h
      exact ⟨hwf.1.1, hwf.1.2⟩
    · exact ih hwf.2 q h

theorem wf_lookupE :
    ∀ (cs : List Str) (root : Entry), wfEntryB root = true →
      ∀ e, lookupE cs root = some e → wfEntryB e = true := by
  intro cs
  induction cs with
  | nil =>
    intro root hwf e h
    have : root = e := by simpa [lookupE] using h
    exact this ▸ hwf
  | cons c cs' ih =>
    intro root hwf e h
    cases root with
    | file _ _ => simp [lookupE] at h
    | dir ch lk =>
      simp only [lookupE] at h
      rcases hf : findPair c ch with _ | e0
      · rw [hf] at h
        simp at h
      · rw [hf] at h
        have hmem := findPair_mem c e0 ch hf
        simp only [wfEntryB, Bool.and_eq_true] at hwf
        have := wfChildren_mem ch hwf.2 (c, e0) hmem
        exact ih e0 this.2 e h

theorem lookup_join (fs : FS) (p n : Str) (e' : Entry)
    (ch : List (Str × Entry)) (lk : Bool)
    (h1 : lookupF fs p = some (Entry.dir ch lk)) (hnd : nodupKeysB ch = true)
    (hn : validNameB n = true) (hmem : (n, e') ∈ ch) :
    lookupF fs (path_join p n) = some e' := by
  unfold lookupF
  rw [compsUsed_join fs p n hn]
  exact lookupE_append n e' _ fs.root ch lk h1 (findPair_of_mem n e' ch hnd hmem)

theorem isfileF_of_lookup (fs : FS) (q c : Str) (lk : Bool)
    (h : lookupF fs q = some (Entry.file c lk)) : isfileF fs q = true := by
  simp [isfileF, h]

theorem islinkF_of_lookup (fs : FS) (q c : Str) (lk : Bool)
    (h : lookupF fs q = some (Entry.file c lk)) : islinkF fs q = lk := by
  simp [islinkF, h]

theorem sizeF_of_lookup (fs : FS) (q c : Str) (lk : Bool)
    (h : lookupF fs q = some (Entry.file c lk)) : sizeF fs q = c.length := by
  simp [sizeF, h]

/-- The top `os.walk` frame, filtered by `find_files`'s predicate, yields
exactly the qualifying regular files of the directory. -/
theorem pick_top (fs : FS) (p : Str) :
    ∀ (ch : List (Str × Entry)),
      (∀ q ∈ ch, validNameB q.1 = true ∧ wfEntryB q.2 = true
        ∧ lookupF fs (path_join p q.1) = some q.2) →
      pick fs (p, dirNames ch, fileNames ch) = qualFiles p ch := by
  intro ch
  induction ch with
  | nil => intro _; rfl
  | cons q rest ih =>
    intro h
    obtain ⟨n, e⟩ := q
    have hq := h (n, e) (List.mem_cons_self _ _)
    have hrest := ih (fun r hr => h r (List.mem_cons_of_mem _ hr))
    cases e with
    | dir ch' lk' =>
      show (fileNames ((n, Entry.dir ch' lk') :: rest)).filterMap _
          = qualFiles p ((n, Entry.dir ch' lk') :: rest)
      have e1 : fileNames ((n, Entry.dir ch' lk') :: rest) = fileNames rest := by
        simp [fileNames, List.filterMap_cons, isDirE]
      have e2 : qualFiles p ((n, Entry.dir ch' lk') :: rest) = qualFiles p rest := by
        simp [qualFiles, List.filterMap_cons]
      rw [e1, e2]
      exact hrest
    | file content lk =>
      have hlkup := hq.2.2
      have e1 : fileNames ((n, Entry.file content lk) :: rest)
          = n :: fileNames rest := by
        simp [fileNames, List.filterMap_cons, isDirE]
      show (fileNames ((n, Entry.file content lk) :: rest)).filterMap _
          = qualFiles p ((n, Entry.file content lk) :: rest)
      rw [e1]
      simp only [List.filterMap_cons, qualFiles]
      rw [isfileF_of_lookup fs _ content lk hlkup,
        islinkF_of_lookup fs _ content lk hlkup,
        sizeF_of_lookup fs _ content lk hlkup]
      by_cases hcond : lk = false ∧ content ≠ []
      · have hsz : content.length ≠ 0 := by
          intro hz
          exact hcond.2 (List.length_eq_zero.mp hz)
        rw [if_pos ⟨rfl, hcond.1, hsz⟩, if_pos hcond]
        exact congrArg (path_join p n :: ·) hrest
      · have hneg : ¬(true = true ∧ lk = false ∧ content.length ≠ 0) := by
          intro hh
          apply hcond
          refine ⟨hh.2.1, ?_⟩
          intro hz
          rw [hz] at hh
          simp at hh
        rw [if_neg hneg, if_neg hcond]
        exact hrest

mutual
/-- Walk-then-filter equals the direct recursive collection: from a
wellformed directory entry at path `p`, `os.walk` followed by
`find_files`'s per-file filter produces exactly the qualifying regular
files of the tree. -/
theorem walk_filter_entry (fs : FS) :
    ∀ (e : Entry) (p : Str), wfEntryB e = true → lookupF fs p = some e →
      (walk_entry p e).flatMap (pick fs) = tree_files p e
  | Entry.file c lk, p => fun _ _ => rfl
  | Entry.dir ch lk, p => fun hwf hlk => by
    have hwf' : nodupKeysB ch = true ∧ wfChildrenB ch = true := by
      simpa [wfEntryB, Bool.and_eq_true] using hwf
    have hchild : ∀ q ∈ ch, validNameB q.1 = true ∧ wfEntryB q.2 = true
        ∧ lookupF fs (path_join p q.1) = some q.2 := by
      intro q hq
      have hv := wfChildren_mem ch hwf'.2 q hq
      refine ⟨hv.1, hv.2, ?_⟩
      have : (q.1, q.2) ∈ ch := by
        cases q
        exact hq
      exact lookup_join fs p q.1 q.2 ch lk hlk hwf'.1 hv.1 this
    show ((p, dirNames ch, fileNames ch) :: walk_children p ch).flatMap (pick fs)
        = qualFiles p ch ++ tree_dirs p ch
    rw [List.flatMap_cons, pick_top fs p ch hchild,
      walk_filter_children fs ch p hchild]

/-- Companion to `walk_filter_entry` for the child list. -/
theorem walk_filter_children (fs : FS) :
    ∀ (ch : List (Str × Entry)) (p : Str),
      (∀ q ∈ ch, validNameB q.1 = true ∧ wfEntryB q.2 = true
        ∧ lookupF fs (path_join p q.1) = some q.2) →
      (walk_children p ch).flatMap (pick fs) = tree_dirs p ch
  | [], p => fun _ => rfl
  | (n, e) :: rest, p => fun h => by
    have hq := h (n, e) (List.mem_cons_self _ _)
    have hrest : ∀ q ∈ rest, validNameB q.1 = true ∧ wfEntryB q.2 = true
        ∧ lookupF fs (path_join p q.1) = some q.2 :=
      fun r hr => h r (List.mem_cons_of_mem _ hr)
    show ((if isRealDirE e then walk_entry (path_join p n) e else [])
        ++ walk_children p rest).flatMap (pick fs)
        = (if isRealDirE e then tree_files (path_join p n) e else [])
          ++ tree_dirs p rest
    rw [List.flatMap_append, walk_filter_children fs rest p hrest]
    by_cases hd : isRealDirE e = true
    · rw [if_pos hd, if_pos hd, walk_filter_entry fs e (path_join p n) hq.2.1 hq.2.2]
    · rw [if_neg hd, if_neg hd]
      rfl
end

/-! ## Walk frames: absolute paths and valid names -/

theorem path_join_abs (p n : Str) (hp : isAbsStr p = true)
    (hn : n.head? ≠ some '/') : isAbsStr (path_join p n) = true := by
  have hpne : p ≠ [] := by
    intro h
    rw [h] at hp
    simp [isAbsStr] at hp
  simp only [path_join, if_neg hn]
  by_cases h2 : p = [] ∨ p.getLast? = some '/'
  · rw [if_pos h2, isAbs_append _ _ hpne]
    exact hp
  · rw [if_neg h2]
    rw [show p ++ '/' :: n = p ++ ('/' :: n) from rfl, isAbs_append _ _ hpne]
    exact hp

theorem fileNames_valid (ch : List (Str × Entry)) (hwf : wfChildrenB ch = true) :
    ∀ n ∈ fileNames ch, validNameB n = true := by
  intro n hn
  simp only [fileNames, List.mem_filterMap] at hn
  obtain ⟨q, hq, hsome⟩ := hn
  have hv := wfChildren_mem ch hwf q hq
  by_cases hd : isDirE q.2 = true
  · rw [if_pos hd] at hsome
    simp at hsome
  · rw [if_neg hd] at hsome
    simp only [Option.some.injEq] at hsome
    exact hsome ▸ hv.1

mutual
/-- Every `os.walk` frame below an absolute, wellformed directory has an
absolute directory path and valid filenames. -/
theorem walk_entry_frames :
    ∀ (e : Entry) (p : Str), wfEntryB e = true → isAbsStr p = true →
      ∀ fr ∈ walk_entry p e,
        isAbsStr fr.1 = true ∧ (∀ n ∈ fr.2.2, validNameB n = true)
  | Entry.file c lk, p => fun _ _ fr hfr => by simp [walk_entry] at hfr
  | Entry.dir ch lk, p => fun hwf hp fr hfr => by
    have hwf' : nodupKeysB ch = true ∧ wfChildrenB ch = true := by
      simpa [wfEntryB, Bool.and_eq_true] using hwf
    rcases List.mem_cons.mp hfr with h | h
    · subst h
      exact ⟨hp, fileNames_valid ch hwf'.2⟩
    · exact walk_children_frames ch p hwf'.2 hp fr h

/-- Companion to `walk_entry_frames` for the child list. -/
theorem walk_children_frames :
    ∀ (ch : List (Str × Entry)) (p : Str), wfChildrenB ch = true →
      isAbsStr p = true → ∀ fr ∈ walk_children p ch,
        isAbsStr fr.1 = true ∧ (∀ n ∈ fr.2.2, validNameB n = true)
  | [], p => fun _ _ fr hfr => by simp [walk_children] at hfr
  | (n, e) :: rest, p => fun hwf hp fr hfr => by
    simp only [wfChildrenB, Bool.and_eq_true] at hwf
    rcases List.mem_append.mp hfr with h | h
    · by_cases hd : isRealDirE e = true
      · rw [if_pos hd] at h
        exact walk_entry_frames e (path_join p n) hwf.1.2
          (path_join_abs p n hp (validName_head n hwf.1.1)) fr h
      · rw [if_neg hd] at h
        simp at h
    · exact walk_children_frames rest p hwf.2 hp fr h
end

theorem normpath_abs_aux (k : Nat) (cs : List Str) (hk : 1 ≤ k) :
    isAbsStr (if List.replicate k '/' ++ List.intercalate "/".data cs = []
      then ".".data
      else List.replicate k '/' ++ List.intercalate "/".data cs) = true := by
  match k, hk with
  | k' + 1, _ =>
    simp only [List.replicate, List.cons_append]
    rw [if_neg (by simp)]
    simp [isAbsStr]

theorem normpath_abs (p : Str) (hp : isAbsStr p = true) :
    isAbsStr (normpath p) = true := by
  have hpne : p ≠ [] := by
    intro h
    rw [h] at hp
    simp [isAbsStr] at hp
  simp only [normpath, if_neg hpne]
  by_cases h1 : p.take 2 = ['/', '/'] ∧ p.take 3 ≠ ['/', '/', '/']
  · rw [if_pos h1]
    exact normpath_abs_aux 2 _ (by omega)
  · rw [if_neg h1]
    have hh : p.head? = some '/' := by
      simpa [isAbsStr] using hp
    rw [if_pos hh]
    exact normpath_abs_aux 1 _ (by omega)

theorem abspathF_abs (fs : FS) (p : Str) (hp : isAbsStr p = true) :
    isAbsStr (abspathF fs p) = true := by
  simp only [abspathF, if_pos hp]
  exact normpath_abs p hp

/-- Every path returned by `find_files` is absolute, provided the tree is
wellformed and every input path is absolute. -/
theorem find_files_abs (fs : FS) (r : Bool) (hwf : wfEntryB fs.root = true) :
    ∀ (paths : List Str), (∀ f ∈ paths, isAbsStr f = true) →
      ∀ q ∈ find_files fs paths r, isAbsStr q = true := by
  intro paths
  induction paths with
  | nil => intro _ q hq; simp [find_files] at hq
  | cons f rest ih =>
    intro habs q hq
    have hf := habs f (List.mem_cons_self _ _)
    simp only [find_files, List.mem_append] at hq
    rcases hq with hq | hq
    · by_cases h1 : r = true ∧ isdirF fs f = true
      · rw [if_pos h1] at hq
        simp only [List.mem_flatMap] at hq
        obtain ⟨fr, hfr, hqf⟩ := hq
        have hdir : ∃ ch lk, lookupF fs f = some (Entry.dir ch lk) := by
          rcases hl : lookupF fs f with _ | e
          · rw [isdirF, hl] at h1
            simp at h1
          · cases e with
            | file c lk =>
              rw [isdirF, hl] at h1
              simp at h1
            | dir ch lk => exact ⟨ch, lk, rfl⟩
        obtain ⟨ch, lk, hl⟩ := hdir
        have hwfe : wfEntryB (Entry.dir ch lk) = true :=
          wf_lookupE _ fs.root hwf _ hl
        have hframes := walk_entry_frames (Entry.dir ch lk) f hwfe hf fr (by
          rw [walkF, hl] at hfr
          exact hfr)
        simp only [pick, List.mem_filterMap] at hqf
        obtain ⟨fname, hfname, hsome⟩ := hqf
        by_cases hcond : isfileF fs (path_join fr.1 fname) = true
            ∧ islinkF fs (path_join fr.1 fname) = false
            ∧ sizeF fs (path_join fr.1 fname) ≠ 0
        · rw [if_pos hcond] at hsome
          simp only [Option.some.injEq] at hsome
          subst hsome
          exact path_join_abs fr.1 fname hframes.1
            (validName_head fname (hframes.2 fname hfname))
        · rw [if_neg hcond] at hsome
          simp at hsome
      · rw [if_neg h1] at hq
        by_cases h2 : isfileF fs f = true ∧ islinkF fs f = false ∧ sizeF fs f ≠ 0
        · rw [if_pos h2] at hq
          simp only [List.mem_singleton] at hq
          subst hq
          exact abspathF_abs fs f hf
        · rw [if_neg h2] at hq
          simp at hq
    · exact ih (fun x hx => habs x (List.mem_cons_of_mem _ hx)) q hq

theorem isfile_not_isdir (fs : FS) (q : Str) (h : isfileF fs q = true) :
    isdirF fs q = false := by
  rcases hl : lookupF fs q with _ | e
  · simp [isfileF, hl] at h
  · cases e with
    | file c lk => simp [isdirF, hl]
    | dir ch lk => simp [isfileF, hl] at h

/-! ## Claim theorems -/

/-- C10.  Basename sanitization is idempotent, keeps only alphanumeric
characters, and preserves the kept characters in order with their case
(it is a sublist of the input); as a Lean function it is trivially pure
and deterministic, with no filesystem access. -/
theorem claim_C10 : ∀ (s : Str),
    clean_fname (clean_fname s) = clean_fname s
    ∧ (∀ c ∈ clean_fname s, c.isAlphanum = true)
    ∧ List.Sublist (clean_fname s) s := by
  intro s
  refine ⟨?_, ?_, ?_⟩
  · simp [clean_fname, List.filter_filter]
  · intro c hc
    exact (List.mem_filter.mp hc).2
  · exact List.filter_sublist _

/-- C8.  Whenever interactive display mode is active (`showplt`), every
effect of the whole run is a `shown` effect: no file of any kind is
written, whatever the format, output-directory or JSON settings, and
whatever the modules do. -/
theorem claim_C8 : ∀ (B : Backend) (genm : Str → Config → Except Str GenResult)
    (cfg : Config), cfg.showplt = true →
    ∀ eff ∈ (generate_graphs B genm cfg).1, ∃ fg, eff = Effect.shown fg := by
  intro B genm cfg h eff heff
  unfold generate_graphs at heff
  rcases hgt : resolve_graphtypes cfg.graphtype with _ | gts
  · rw [hgt] at heff
    simp at heff
  · rw [hgt] at heff
    exact run_pairs_shown B genm cfg gts h cfg.files 0 eff heff

/-- C9.  (a) Resolving a directory with recursion yields exactly the
regular, non-symlink, non-empty files of the tree (`tree_files`, the
specification-side recursive collection), in walk order — never a
directory; (b) every returned path is a file and not a directory; (c) any
other literal input (missing, symlink or empty file, unrecursed
directory) is skipped without failing: the remaining inputs are still
processed. -/
theorem claim_C9 :
    (∀ (fs : FS) (f : Str) (e : Entry), wfEntryB fs.root = true →
      lookupF fs f = some e → isDirE e = true →
      find_files fs [f] true = tree_files f e)
    ∧ (∀ (fs : FS) (f : Str), isdirF fs f = true →
      ∀ q ∈ find_files fs [f] true, isfileF fs q = true ∧ isdirF fs q = false)
    ∧ (∀ (fs : FS) (f : Str) (rest : List Str) (r : Bool),
      ¬(r = true ∧ isdirF fs f = true) →
      ¬(isfileF fs f = true ∧ islinkF fs f = false ∧ sizeF fs f ≠ 0) →
      find_files fs (f :: rest) r = find_files fs rest r) := by
  refine ⟨?_, ?_, ?_⟩
  · intro fs f e hwf hl hd
    cases e with
    | file c lk => simp [isDirE] at hd
    | dir ch lk =>
      have hisdir : isdirF fs f = true := by simp [isdirF, hl]
      simp only [find_files]
      rw [if_pos ⟨by trivial, hisdir⟩]
      rw [walkF, hl, walk_filter_entry fs (Entry.dir ch lk) f
        (wf_lookupE _ _ hwf _ hl) hl]
      simp [find_files]
  · intro fs f hd q hq
    simp only [find_files, List.mem_append] at hq
    rcases hq with hq | hq
    · rw [if_pos ⟨by trivial, hd⟩] at hq
      simp only [List.mem_flatMap] at hq
      obtain ⟨fr, hfr, hqf⟩ := hq
      simp only [pick, List.mem_filterMap] at hqf
      obtain ⟨fname, hfname, hsome⟩ := hqf
      by_cases hcond : isfileF fs (path_join fr.1 fname) = true
          ∧ islinkF fs (path_join fr.1 fname) = false
          ∧ sizeF fs (path_join fr.1 fname) ≠ 0
      · rw [if_pos hcond] at hsome
        simp only [Option.some.injEq] at hsome
        subst hsome
        exact ⟨hcond.1, isfile_not_isdir fs _ hcond.1⟩
      · rw [if_neg hcond] at hsome
        simp at hsome
    · simp [find_files] at hq
  · intro fs f rest r h1 h2
    simp only [find_files]
    rw [if_neg h1, if_neg h2]
    simp

/-- C1 (amended).  The output filename is assembled as
`[prefix-]index-analysisType-sanitizedBasename.format` when a batch index
is present, but as `[prefix-]analysisType.format` when it is absent: the
sanitized-basename segment is dropped together with the index segment
(and the `prefix-` segment is also dropped when the configured prefix is
the empty string).  In multi-file runs every pair of the `i`-th file (in
traversal order) uses batch index `i` (0-based, from `enumerate`).
Brace-free inputs are assumed, since a brace would collide with the
template placeholders. -/
theorem claim_C1 :
    (∀ (ffrmt fp dir : Str) (o : Option Str) (g : Str) (io : Option Nat),
      '\x7b' ∉ o.getD [] → '\x7b' ∉ g →
      (gen_names ffrmt fp dir o g io).1
        = path_join dir (assembled_name o g (clean_fname (basename fp)) ffrmt io))
    ∧ (∀ (B : Backend) (g : Str → Config → GenResult) (cfg : Config)
        (gts : List Str), resolve_graphtypes cfg.graphtype = some gts →
        cfg.files.length > 1 →
        generate_graphs B (fun m c => Except.ok (g m c)) cfg
          = (expected_effects_idx B g cfg gts 0 cfg.files, none)) := by
  constructor
  · intro ffrmt fp dir o g io ho hg
    rw [gen_names_eq ffrmt fp dir o g io ho hg]
  · intro B g cfg gts hgt hlen
    rw [generate_graphs_ok B g cfg gts hgt,
      expected_effects_of_multi B g cfg gts hlen 0 cfg.files]

/-- C2 (amended).  When a module's `generate` raises on one file, the
orchestrator does not continue: the artifacts produced before the failure
remain, the failing pair produces no artifact, and no later pair is
processed — the exception propagates and aborts the run. -/
theorem claim_C2 : ∀ (B : Backend) (g : Str → Config → GenResult)
    (msg fbad : Str) (cfg : Config) (m : Str) (ms : List Str)
    (done rest : List Str),
    resolve_graphtypes cfg.graphtype = some (m :: ms) →
    cfg.files = done ++ fbad :: rest →
    fbad ∉ done →
    generate_graphs B (fun m' c => if c.abs_fpath = some fbad
        then Except.error msg else Except.ok (g m' c)) cfg
      = (expected_effects B g cfg (m :: ms) 0 done, some msg) := by
  intro B g msg fbad cfg m ms done rest hgt hfiles hdone
  simp only [generate_graphs, hgt]
  rw [hfiles]
  exact run_pairs_abort B g msg fbad cfg m ms rest done 0 hdone

/-- C3 (amended).  An empty resolved file list is not rejected: provided
the save directory exists and the modules' argument validation passes,
the run completes successfully with zero iterations, zero artifacts and
no error — there is no ConfigurationError and no non-zero exit. -/
theorem claim_C3 : ∀ (B : Backend) (genm : Str → Config → Except Str GenResult)
    (validate : Str → Config → Bool) (fs : FS) (args : Config) (gts : List Str),
    gather_files fs args.files args.recurse = Except.ok [] →
    isdirF fs (abspathF fs args.save_dir) = true →
    resolve_graphtypes args.graphtype = some gts →
    gts.all (fun m => validate m {args with files := [], save_dir := abspathF fs args.save_dir}) = true →
    main_run B genm validate fs args = Except.ok ([], none) := by
  intro B genm validate fs args gts hg hd hgt hv
  have hgt2 : resolve_graphtypes ({args with files := ([] : List Str), save_dir := abspathF fs args.save_dir}).graphtype = some gts := hgt
  simp only [main_run, hg]
  rw [if_neg (by simp [hd])]
  simp only [hgt2, hv, if_true]
  simp [generate_graphs, hgt2, run_pairs]

/-- C4.  JSON mode is file mode plus an envelope: decoding the base64
payload stored under `graph` yields exactly the bytes that file-mode
rendering writes for the same figure, format, dpi and save options. -/
theorem claim_C4 : ∀ (B : Backend) (cfg : Config) (fig : Nat)
    (kw : List (Str × Str)) (jd : Nat) (p : Str),
    (∀ x ∈ B.savefigBytes (B.tight_layout (B.set_size_inches fig cfg.figsize))
        cfg.format cfg.dpi kw, x < 256) →
    Option.map b64decode (graphB64 (output_step B
        {cfg with json := true, showplt := false} fig kw jd p))
      = fileBytes (output_step B
        {cfg with json := false, showplt := false} fig kw jd p) := by
  intro B cfg fig kw jd p hb
  rw [output_step_json B {cfg with json := true, showplt := false}
    fig kw jd p rfl rfl]
  have hfile : output_step B {cfg with json := false, showplt := false}
      fig kw jd p
      = Effect.wroteFile p (B.savefigBytes
          (B.tight_layout (B.set_size_inches fig cfg.figsize))
          cfg.format cfg.dpi kw) := by
    simp [output_step]
  rw [hfile]
  simp only [graphB64, docLookup, fileBytes]
  rw [if_neg (by decide : ¬(['i', 'n', 'f', 'o'] : Str) = ['g', 'r', 'a', 'p', 'h'])]
  show some (b64decode (b64encode (B.savefigBytes
    (B.tight_layout (B.set_size_inches fig cfg.figsize))
    cfg.format cfg.dpi kw))) = _
  rw [b64_roundtrip _ hb]

/-- C5 (amended).  Resolving an `@listfile` yields ALL of the referenced
file's lines (trailing newlines stripped, in file order) verbatim —
including empty lines from blank lines in the file — with no
re-resolution or directory expansion: the result depends only on the list
file's content, not on what the listed paths denote. -/
theorem claim_C5 : ∀ (fs : FS) (L : Str) (r : Bool) (content : Str) (lk : Bool),
    lookupF fs L = some (Entry.file content lk) →
    gather_files fs ['@' :: L] r
      = Except.ok ((readlines content).map rstripNl) := by
  intro fs L r content lk hl
  simp only [gather_files]
  rw [if_pos (show ('@' :: L).head? = some '@' from rfl)]
  have hf : File2Strings fs ('@' :: L).tail
      = some ((readlines content).map rstripNl) := by
    simp only [List.tail_cons, File2Strings, hl]
  rw [hf]
  simp [gather_files]

/-- C6 (amended).  Paths returned by resolution are absolute when the
inputs are: literal regular files are absolutized with `os.path.abspath`,
while paths found by directory recursion are joins of the walked
directory path, so they are absolute exactly when the input directory
path was absolute (a relative directory input yields relative outputs —
see the counterexample). -/
theorem claim_C6 : ∀ (fs : FS) (r : Bool) (paths : List Str),
    wfEntryB fs.root = true → (∀ f ∈ paths, isAbsStr f = true) →
    ∀ q ∈ find_files fs paths r, isAbsStr q = true := by
  intro fs r paths hwf habs
  exact find_files_abs fs r hwf paths habs

/-- C7 (amended).  In JSON output mode (with interactive display off),
an error-free run writes for every (file, type) pair exactly one JSON
artifact at that pair's computed output path (`gen_names`) with its
extension replaced by `.json`; the document has exactly the keys `info`
(the module's metadata record), `graph` (the base64 encoding of the
rendered image bytes), `cmdline`, and `version` (the `{codename, digit}`
tag), in that order, where `cmdline` is the space-joined KEY NAMES of
the configuration dictionary (`" ".join(args_dict)` iterates the dict's
keys, so the configuration's values are not serialized). -/
theorem claim_C7 : ∀ (B : Backend) (g : Str → Config → GenResult)
    (cfg : Config) (gts : List Str),
    cfg.showplt = false → cfg.json = true →
    resolve_graphtypes cfg.graphtype = some gts →
    generate_graphs B (fun m c => Except.ok (g m c)) cfg
      = (expected_json_effects B g cfg gts 0 cfg.files, none) := by
  intro B g cfg gts hs hj hgt
  rw [generate_graphs_ok B g cfg gts hgt,
    expected_effects_json B g cfg gts hs hj 0 cfg.files]

/-! ## Witnesses and counterexamples -/

/-- Witness for C1 at concrete inputs (multi-file, prefix, index 2). -/
theorem claim_C1_witness :
    ('\x7b' ∉ ("pre".data : Str)) ∧ ('\x7b' ∉ ("ent".data : Str))
    ∧ (gen_names "png".data "/a/mal.exe".data "/out".data (some "pre".data)
        "ent".data (some 2)).1
      = path_join "/out".data (assembled_name (some "pre".data) "ent".data
          (clean_fname (basename "/a/mal.exe".data)) "png".data (some 2))
    ∧ resolve_graphtypes cfgW.graphtype = some ["ent".data]
    ∧ cfgW.files.length > 1
    ∧ generate_graphs BW (fun m c => Except.ok (gW m c)) cfgW
      = (expected_effects_idx BW gW cfgW ["ent".data] 0 cfgW.files, none) :=
  ⟨by decide, by decide,
   claim_C1.1 "png".data "/a/mal.exe".data "/out".data (some "pre".data)
     "ent".data (some 2) (by decide) (by decide),
   by decide, by decide,
   claim_C1.2 BW gW cfgW ["ent".data] (by decide) (by decide)⟩

/-- Counterexample to C1 as stated: with no batch index the code produces
`/out/ent.png` — the sanitized basename `malexe` is NOT present, although
the claim says it always is (which would give `/out/ent-malexe.png`). -/
theorem claim_C1_cex :
    (gen_names "png".data "/a/mal.exe".data "/out".data none "ent".data none).1
      = "/out/ent.png".data
    ∧ ("/out/ent.png".data : Str) ≠ "/out/ent-malexe.png".data :=
  ⟨by decide, by decide⟩

/-- Witness for C2: the module fails on the first file; the run returns
no artifacts and the propagated error. -/
theorem claim_C2_witness :
    resolve_graphtypes cfgW.graphtype = some ("ent".data :: [])
    ∧ cfgW.files = [] ++ "/a/m.exe".data :: ["/b/n.exe".data]
    ∧ ("/a/m.exe".data : Str) ∉ ([] : List Str)
    ∧ generate_graphs BW (fun m' c => if c.abs_fpath = some "/a/m.exe".data
        then Except.error "boom".data else Except.ok (gW m' c)) cfgW
      = (expected_effects BW gW cfgW ("ent".data :: []) 0 [], some "boom".data) :=
  ⟨by decide, by decide, by decide,
   claim_C2 BW gW "boom".data "/a/m.exe".data cfgW "ent".data [] []
     ["/b/n.exe".data] (by decide) (by decide) (by decide)⟩

/-- Counterexample to C2 as stated: the module fails only on the first
file and would succeed on the second, yet the run produces no artifact at
all — it does not continue to the next pair. -/
theorem claim_C2_cex :
    (generate_graphs BW genC2X cfgW).1 = []
    ∧ (generate_graphs BW genC2X cfgW).2 = some "boom".data
    ∧ genC2X "ent".data {cfgW with abs_fpath := some "/b/n.exe".data}
      = Except.ok (gW "ent".data {cfgW with abs_fpath := some "/b/n.exe".data}) :=
  ⟨by decide, by decide, rfl⟩

/-- Witness for C3: an input resolving to no files still yields a
successful, artifact-free run. -/
theorem claim_C3_witness :
    gather_files fsW3 argsW3.files argsW3.recurse = Except.ok []
    ∧ isdirF fsW3 (abspathF fsW3 argsW3.save_dir) = true
    ∧ resolve_graphtypes argsW3.graphtype = some ["ent".data]
    ∧ (["ent".data].all (fun m => (fun _ _ => true : Str → Config → Bool) m {argsW3 with files := [], save_dir := abspathF fsW3 argsW3.save_dir})) = true
    ∧ main_run BW genOkW (fun _ _ => true) fsW3 argsW3 = Except.ok ([], none) :=
  ⟨rfl, by decide, by decide, by decide,
   claim_C3 BW genOkW (fun _ _ => true) fsW3 argsW3 ["ent".data] rfl
     (by decide) (by decide) (by decide)⟩

/-- Counterexample to C3 as stated: the resolved file list is empty, yet
the run does not fail — it returns success with zero artifacts instead of
a fatal ConfigurationError. -/
theorem claim_C3_cex :
    gather_files fsW3 argsW3.files argsW3.recurse = Except.ok []
    ∧ main_run BW genOkW (fun _ _ => true) fsW3 argsW3 = Except.ok ([], none) :=
  ⟨rfl, rfl⟩

/-- Witness for C4 at a concrete backend whose rendered bytes are
`[0, 255, 10]`. -/
theorem claim_C4_witness :
    (∀ x ∈ BW.savefigBytes (BW.tight_layout (BW.set_size_inches 5 cfgW.figsize))
        cfgW.format cfgW.dpi [], x < 256)
    ∧ Option.map b64decode (graphB64 (output_step BW
        {cfgW with json := true, showplt := false} 5 [] 9 "/out/a.png".data))
      = fileBytes (output_step BW
        {cfgW with json := false, showplt := false} 5 [] 9 "/out/a.png".data) :=
  ⟨by decide, claim_C4 BW cfgW 5 [] 9 "/out/a.png".data (by decide)⟩

/-- Witness for C5: a two-line list file resolves to exactly its lines. -/
theorem claim_C5_witness :
    lookupF fsW5 "list.txt".data = some (Entry.file "a.bin\nb.bin\n".data false)
    ∧ gather_files fsW5 ['@' :: "list.txt".data] false
      = Except.ok ((readlines "a.bin\nb.bin\n".data).map rstripNl) :=
  ⟨rfl, claim_C5 fsW5 "list.txt".data false "a.bin\nb.bin\n".data false rfl⟩

/-- Counterexample to C5 as stated: a blank interior line is kept as the
empty path `""`, so the result is not the file's non-empty lines. -/
theorem claim_C5_cex :
    File2Strings fsX5 "L".data = some ["a.bin".data, [], "b.bin".data]
    ∧ (["a.bin".data, [], "b.bin".data] : List Str)
      ≠ ["a.bin".data, "b.bin".data] :=
  ⟨by decide, by decide⟩

/-- Witness for C6: an absolute directory input yields absolute outputs. -/
theorem claim_C6_witness :
    (wfEntryB fsW6.root = true ∧ (∀ f ∈ [("/data".data : Str)], isAbsStr f = true))
    ∧ (∀ q ∈ find_files fsW6 ["/data".data] true, isAbsStr q = true)
    ∧ find_files fsW6 ["/data".data] true = ["/data/x.bin".data] :=
  ⟨⟨by decide, by decide⟩,
   claim_C6 fsW6 true ["/data".data] (by decide) (by decide), by decide⟩

/-- Counterexample to C6 as stated: recursing into the relative directory
input `d` returns the relative path `d/x`, not an absolute path. -/
theorem claim_C6_cex :
    find_files fsX6 ["d".data] true = ["d/x".data]
    ∧ isAbsStr "d/x".data = false :=
  ⟨by decide, by decide⟩

/-- Witness for C7: a concrete two-file JSON-mode run; the artifact
paths are the computed names with the extension replaced by `.json`. -/
theorem claim_C7_witness :
    (cfgW7.showplt = false ∧ cfgW7.json = true
      ∧ resolve_graphtypes cfgW7.graphtype = some ["ent".data])
    ∧ generate_graphs BW (fun m c => Except.ok (gW m c)) cfgW7
      = (expected_json_effects BW gW cfgW7 ["ent".data] 0 cfgW7.files, none)
    ∧ (generate_graphs BW (fun m c => Except.ok (gW m c)) cfgW7).1.map
        (fun eff => match eff with
          | Effect.wroteJson p _ => p
          | _ => [])
      = ["/out/pre-0-ent-mexe.json".data, "/out/pre-1-ent-nexe.json".data] :=
  ⟨⟨rfl, rfl, by decide⟩,
   claim_C7 BW gW cfgW7 ["ent".data] rfl rfl (by decide),
   by decide⟩

/-- Counterexample to C7 as stated: two configurations differing in a
value (dpi 100 vs 200) produce the same `cmdline` string, so `cmdline`
cannot be the full effective configuration serialized as a string. -/
theorem claim_C7_cex :
    cmdlineStr cfgW = cmdlineStr cfgX7b ∧ cfgW ≠ cfgX7b :=
  ⟨rfl, by decide⟩

/-- Witness for C8: an interactive run produces only `shown` effects. -/
theorem claim_C8_witness :
    cfgW8.showplt = true
    ∧ (∀ eff ∈ (generate_graphs BW genOkW cfgW8).1, ∃ fg, eff = Effect.shown fg)
    ∧ (generate_graphs BW genOkW cfgW8).1 = [Effect.shown 0, Effect.shown 0] :=
  ⟨rfl, claim_C8 BW genOkW cfgW8 rfl, by decide⟩

/-- Witness for C9 on the spec's example: a directory with one empty
file, one symlink and one regular non-empty file resolves to exactly the
regular file. -/
theorem claim_C9_witness :
    (wfEntryB fsW9.root = true ∧ lookupF fsW9 "/data".data = some dirC9
      ∧ isDirE dirC9 = true)
    ∧ find_files fsW9 ["/data".data] true = tree_files "/data".data dirC9
    ∧ find_files fsW9 ["/data".data] true = ["/data/good.bin".data] :=
  ⟨⟨by decide, rfl, by decide⟩,
   claim_C9.1 fsW9 "/data".data dirC9 (by decide) rfl (by decide), by decide⟩
